import Mathlib

/-!
WiFiClient (ESP8266WiFi): handle life cycle and connect protocol.

Shallow embedding of `libraries/ESP8266WiFi/src/WiFiClient.cpp`.

* A handle (`WiFiClient`) is its address in the registry together with its `_client`
  pointer (`none` is the null pointer).
* Memory and the collaborators are explicit state (`World`): the heap of
  `ClientContext` objects, the table of raw connections (`tcp_pcb`) owned by the
  stack, the static `_localPort`, and the log of calls made to the scheduler and
  to the stack.
* A method returns `Except Fault _`: calling through a null `_client` or through a
  pointer to a deleted context is a fault, not a value.
* What the outside decides (route lookup, allocation, name resolution, which
  callback the stack fires while the caller is suspended) is the argument `Env`.
-/

namespace ESP8266WiFi

/-! ## Data model -/

/-- How a run of the code can go wrong. -/
inductive Fault where
  /-- a method was called through a null `_client` -/
  | nullDeref
  /-- a method was called on a context that is not (or no longer) allocated -/
  | useAfterFree
  /-- not a step of any program: the operation names a handle that is not a live
  object, or constructs a handle where a live one is -/
  | badOp
  deriving DecidableEq, Repr

/-- The two `tcp_connected_fn` callbacks `connectex` can register. -/
inductive ConnectedFn where
  | _s_connected
  | _s_connected_nb
  deriving DecidableEq, Repr

/-- What became of a raw connection. -/
inductive PcbFate where
  | live
  | closed
  | aborted
  deriving DecidableEq, Repr

/-- lwIP `enum tcp_state`: `CLOSED`. -/
def CLOSED : Nat := 0
/-- lwIP `enum tcp_state`: `SYN_SENT`. -/
def SYN_SENT : Nat := 2
/-- lwIP `enum tcp_state`: `ESTABLISHED`. -/
def ESTABLISHED : Nat := 4
/-- lwIP `err_t`: `ERR_OK`. -/
def ERR_OK : Int := 0

/-- The raw connection of the stack (lwIP `struct tcp_pcb`), reduced to the fields
the client code sets or reads. -/
structure tcp_pcb where
  fate : PcbFate
  state : Nat
  local_port : Nat
  remote_ip : Nat
  remote_port : Nat
  nodelay : Bool
  callback_arg : Option Nat
  errf : Bool
  connected : Option ConnectedFn
  deriving DecidableEq, Repr

/-- Modelled from the spec: `include/ClientContext.h` is not among the sources. A
connection context wraps one raw connection (or none, once aborted), carries the
reference count and the unread inbound bytes. -/
structure ClientContext where
  pcb : Option Nat
  refcnt : Int
  rx : List Nat
  deriving DecidableEq, Repr

/-- Calls made to the scheduler and to the stack, in the order they are made. -/
inductive Call where
  | ip_route (addr : Nat)
  | tcp_new
  | tcp_arg (pcb arg : Nat)
  | tcp_err (pcb : Nat)
  | tcp_connect (pcb addr port : Nat) (cb : ConnectedFn)
  | esp_yield
  | esp_schedule
  | optimistic_yield (ms : Nat)
  | tcp_write (pcb size : Nat)
  | flush (pcb : Nat)
  deriving DecidableEq, Repr

/-- Everything the handles share. -/
structure World where
  /-- context objects by address; `none` where nothing is allocated -/
  heap : Nat → Option ClientContext
  /-- address the next `new ClientContext` gets -/
  brk : Nat
  /-- raw connections of the stack by identity -/
  pcbs : Nat → Option tcp_pcb
  /-- identity the next `tcp_new` gives -/
  npcb : Nat
  /-- the static `WiFiClient::_localPort` (a `uint16_t`) -/
  _localPort : Nat
  /-- calls to the collaborators so far -/
  log : List Call
  /-- contexts deleted by `unref`, in order -/
  released : List Nat

/-- The user-facing handle: its own address and the `_client` pointer. -/
structure WiFiClient where
  addr : Nat
  _client : Option Nat
  deriving DecidableEq, Repr

/-- The stack event that ends a blocking caller's suspension. -/
inductive StackEvent where
  | connected
  | err
  deriving DecidableEq, Repr

/-- What the collaborators answer during one `connectex`. -/
structure Env where
  /-- `WiFi.hostByName`: the resolved address, or `none` on failure -/
  hostByName : String → Option Nat
  /-- `ip_route(&addr)` is non-null -/
  ip_route : Nat → Bool
  /-- `tcp_new()` is non-null -/
  tcp_new_ok : Bool
  /-- which callback the stack fires while a blocking caller is suspended -/
  fires : StackEvent

/-! ## World helpers -/

/-- A world with nothing allocated; `_localPort = 0` as in its definition. -/
def World.empty : World :=
  { heap := fun _ => none, brk := 0, pcbs := fun _ => none, npcb := 0,
    _localPort := 0, log := [], released := [] }

/-- Record one call to a collaborator. -/
def World.call (w : World) (c : Call) : World :=
  { w with log := w.log ++ [c] }

/-- Write the context object at address `p`. -/
def World.store (w : World) (p : Nat) (c : ClientContext) : World :=
  { w with heap := Function.update w.heap p (some c) }

/-- Apply `f` to the raw connection `i`, when there is one. -/
def World.modPcb (w : World) (i : Nat) (f : tcp_pcb → tcp_pcb) : World :=
  { w with pcbs := Function.update w.pcbs i ((w.pcbs i).map f) }

/-- End the raw connection `i` with the given fate. -/
def World.setFate (w : World) (i : Nat) (fate : PcbFate) : World :=
  w.modPcb i (fun b => { b with fate := fate })

/-- Reading `*p`: a fault when no context lives at `p`. -/
def deref (w : World) (p : Nat) : Except Fault ClientContext :=
  match w.heap p with
  | some c => .ok c
  | none => .error .useAfterFree

/-- Conversion of a `size_t` to `int` on the 32-bit target. -/
def toInt32 (n : Nat) : Int :=
  if n % 4294967296 < 2147483648 then ((n % 4294967296 : Nat) : Int)
  else ((n % 4294967296 : Nat) : Int) - 4294967296

/-! ## ClientContext (from the spec) -/

/-- Modelled from the spec: the constructor of `ClientContext` (ClientContext.h is
absent). `new ClientContext(tpcb, 0, 0)` allocates a context wrapping `tpcb` with no
reference yet; returns its address. -/
def ClientContext.new (w : World) (tpcb : Nat) : Nat × World :=
  (w.brk, { (w.store w.brk { pcb := some tpcb, refcnt := 0, rx := [] }) with brk := w.brk + 1 })

/-- Modelled from the spec: `ClientContext::ref` (ClientContext.h is absent):
increment the count. -/
def ClientContext.ref (w : World) (p : Nat) : Except Fault World := do
  let c ← deref w p
  pure (w.store p { c with refcnt := c.refcnt + 1 })

/-- Modelled from the spec: `ClientContext::state` (ClientContext.h is absent): the
TCP state of the wrapped raw connection; `CLOSED` when there is none. -/
def ClientContext.state (w : World) (c : ClientContext) : Nat :=
  match c.pcb with
  | none => CLOSED
  | some i =>
    match w.pcbs i with
    | none => CLOSED
    | some b => b.state

/-- Modelled from the spec: what `unref` does when the count reaches zero
(ClientContext.h is absent): release the raw connection (graceful close if
established, otherwise abort) and free the context. -/
def ClientContext.release (w : World) (p : Nat) (c : ClientContext) : World :=
  let w1 :=
    match c.pcb with
    | none => w
    | some i =>
      w.setFate i (if ClientContext.state w c = ESTABLISHED then .closed else .aborted)
  { w1 with heap := Function.update w1.heap p none, released := w1.released ++ [p] }

/-- Modelled from the spec: `ClientContext::unref` (ClientContext.h is absent):
decrement the count; at zero release the connection and free the context. -/
def ClientContext.unref (w : World) (p : Nat) : Except Fault World := do
  let c ← deref w p
  if c.refcnt - 1 = 0 then
    pure (ClientContext.release w p c)
  else
    pure (w.store p { c with refcnt := c.refcnt - 1 })

/-- Modelled from the spec: `ClientContext::abort` (ClientContext.h is absent):
forcibly terminate the raw connection; the context wraps none afterwards. -/
def ClientContext.abort (w : World) (p : Nat) : Except Fault World := do
  let c ← deref w p
  match c.pcb with
  | none => pure w
  | some i => pure ((w.setFate i .aborted).store p { c with pcb := none })

/-- Modelled from the spec: `ClientContext::getSize` (ClientContext.h is absent):
number of bytes available to read. -/
def ClientContext.getSize (c : ClientContext) : Nat := c.rx.length

/-- Modelled from the spec: `ClientContext::read()` (ClientContext.h is absent):
consume one buffered byte; -1 when nothing is available. -/
def ClientContext.read (w : World) (p : Nat) : Except Fault (Int × World) := do
  let c ← deref w p
  match c.rx with
  | [] => pure (-1, w)
  | b :: bs => pure ((b : Int), w.store p { c with rx := bs })

/-- Modelled from the spec: `ClientContext::read(buf, size)` (ClientContext.h is
absent): consume up to `size` buffered bytes; returns how many and which. -/
def ClientContext.readBuf (w : World) (p : Nat) (size : Nat) :
    Except Fault (Nat × List Nat × World) := do
  let c ← deref w p
  pure ((c.rx.take size).length, c.rx.take size, w.store p { c with rx := c.rx.drop size })

/-- Modelled from the spec: `ClientContext::peek` (ClientContext.h is absent):
inspect the next buffered byte; -1 when nothing is available. -/
def ClientContext.peek (w : World) (p : Nat) : Except Fault Int := do
  let c ← deref w p
  match c.rx with
  | [] => pure (-1)
  | b :: _ => pure (b : Int)

/-- Modelled from the spec: `ClientContext::write` (ClientContext.h is absent):
stage bytes for sending; returns the number accepted (`room` is what flow control
lets through), 0 without a raw connection or for zero length. -/
def ClientContext.write (w : World) (p : Nat) (size room : Nat) : Except Fault (Nat × World) := do
  let c ← deref w p
  match c.pcb with
  | none => pure (0, w)
  | some i =>
    if size = 0 then pure (0, w)
    else pure (min size room, w.call (.tcp_write i (min size room)))

/-- Modelled from the spec: `ClientContext::flush` (ClientContext.h is absent): wait
until the staged bytes are acknowledged. -/
def ClientContext.flush (w : World) (p : Nat) : Except Fault World := do
  let c ← deref w p
  match c.pcb with
  | none => pure w
  | some i => pure (w.call (.flush i))

/-- Modelled from the spec: `ClientContext::setNoDelay` (ClientContext.h is
absent). -/
def ClientContext.setNoDelay (w : World) (p : Nat) (nodelay : Bool) : Except Fault World := do
  let c ← deref w p
  match c.pcb with
  | none => pure w
  | some i => pure (w.modPcb i (fun b => { b with nodelay := nodelay }))

/-- Modelled from the spec: `ClientContext::getNoDelay` (ClientContext.h is
absent). -/
def ClientContext.getNoDelay (w : World) (c : ClientContext) : Bool :=
  match c.pcb with
  | none => false
  | some i =>
    match w.pcbs i with
    | none => false
    | some b => b.nodelay

/-- Modelled from the spec: `ClientContext::getRemoteAddress` (ClientContext.h is
absent): zero without a raw connection. -/
def ClientContext.getRemoteAddress (w : World) (c : ClientContext) : Nat :=
  match c.pcb with
  | none => 0
  | some i =>
    match w.pcbs i with
    | none => 0
    | some b => b.remote_ip

/-- Modelled from the spec: `ClientContext::getRemotePort` (ClientContext.h is
absent): zero without a raw connection. -/
def ClientContext.getRemotePort (w : World) (c : ClientContext) : Nat :=
  match c.pcb with
  | none => 0
  | some i =>
    match w.pcbs i with
    | none => 0
    | some b => b.remote_port

/-! ## The stack (lwIP), as far as `connectex` drives it -/

/-- The stack's `tcp_new` when it succeeds: a fresh raw connection, zeroed, in state
`CLOSED`; returns its identity. -/
def tcp_new (w : World) : Nat × World :=
  (w.npcb,
    { w with
      pcbs := Function.update w.pcbs w.npcb
        (some { fate := .live, state := CLOSED, local_port := 0, remote_ip := 0,
                remote_port := 0, nodelay := false, callback_arg := none, errf := false,
                connected := none })
      npcb := w.npcb + 1 })

/-- The stack's `tcp_arg`. -/
def tcp_arg (w : World) (pcb arg : Nat) : World :=
  (w.modPcb pcb (fun b => { b with callback_arg := some arg })).call (.tcp_arg pcb arg)

/-- The stack's `tcp_err` (the callback registered is always `_s_err`). -/
def tcp_err (w : World) (pcb : Nat) : World :=
  (w.modPcb pcb (fun b => { b with errf := true })).call (.tcp_err pcb)

/-- The stack's `tcp_connect`: remember the peer and the callback, send the SYN. -/
def tcp_connect (w : World) (pcb addr port : Nat) (cb : ConnectedFn) : World :=
  (w.modPcb pcb (fun b =>
      { b with remote_ip := addr, remote_port := port, connected := some cb,
               state := SYN_SENT })).call (.tcp_connect pcb addr port cb)

/-! ## WiFiClient -/

namespace WiFiClient

/-- The method `WiFiClient::stop`. -/
def stop (self : WiFiClient) (w : World) : Except Fault (WiFiClient × World) :=
  match self._client with
  | none => pure (self, w)
  | some p => do
    let w1 ← ClientContext.unref w p
    pure ({ self with _client := none }, w1)

/-- The callback `WiFiClient::_connected` (blocking connect). -/
def _connected (self : WiFiClient) (w : World) (tpcb : Nat) :
    Except Fault (Int × WiFiClient × World) := do
  let (p, w1) := ClientContext.new w tpcb
  let w2 ← ClientContext.ref w1 p
  pure (ERR_OK, { self with _client := some p }, w2.call .esp_schedule)

/-- The callback `WiFiClient::_connected_nb` (non-blocking connect). -/
def _connected_nb (self : WiFiClient) (w : World) (tpcb : Nat) :
    Except Fault (Int × WiFiClient × World) := do
  let (p, w1) := ClientContext.new w tpcb
  let w2 ← ClientContext.ref w1 p
  pure (ERR_OK, { self with _client := some p }, w2)

/-- The callback `WiFiClient::_err`. -/
def _err (self : WiFiClient) (w : World) : WiFiClient × World :=
  (self, w.call .esp_schedule)

/-- The static dispatcher `WiFiClient::_s_connected`; `arg` is the handle that was
registered with `tcp_arg`. -/
def _s_connected (arg : WiFiClient) (w : World) (tpcb : Nat) :
    Except Fault (Int × WiFiClient × World) :=
  _connected arg w tpcb

/-- The static dispatcher `WiFiClient::_s_connected_nb`. -/
def _s_connected_nb (arg : WiFiClient) (w : World) (tpcb : Nat) :
    Except Fault (Int × WiFiClient × World) :=
  _connected_nb arg w tpcb

/-- The static dispatcher `WiFiClient::_s_err`. -/
def _s_err (arg : WiFiClient) (w : World) : WiFiClient × World :=
  _err arg w

/-- What happens while a blocking caller is suspended in `esp_yield`: the stack
fires exactly one of the two callbacks registered on `pcb`, with the handle as
argument. On success the connection is established first; on error the stack has
already destroyed the raw connection. -/
def suspended (self : WiFiClient) (w : World) (pcb : Nat) (ev : StackEvent) :
    Except Fault (WiFiClient × World) :=
  match ev with
  | .connected => do
    let (_, self1, w1) ←
      _s_connected self (w.modPcb pcb (fun b => { b with state := ESTABLISHED })) pcb
    pure (self1, w1)
  | .err => pure (_s_err self (w.setFate pcb .aborted))

/-- The method `WiFiClient::connectex(IPAddress ip, uint16_t port, bool block)`. -/
def connectex (self : WiFiClient) (w : World) (ip port : Nat) (block : Bool) (env : Env) :
    Except Fault (Int × WiFiClient × World) := do
  let (self1, w1) ← (match self._client with
    | some _ => stop self w
    | none => pure (self, w))
  let w2 := w1.call (.ip_route ip)
  if env.ip_route ip = false then
    pure (0, self1, w2)
  else
    let w3 := w2.call .tcp_new
    if env.tcp_new_ok = false then
      pure (0, self1, w3)
    else
      let (pcb, w4) := tcp_new w3
      let w5 :=
        if w4._localPort > 0 then
          { (w4.modPcb pcb (fun b => { b with local_port := w4._localPort })) with
            _localPort := (w4._localPort + 1) % 65536 }
        else w4
      let w6 := tcp_arg w5 pcb self1.addr
      let w7 := tcp_err w6 pcb
      if block then
        let w8 := tcp_connect w7 pcb ip port ._s_connected
        let w9 := w8.call .esp_yield
        let (self2, w10) ← suspended self1 w9 pcb env.fires
        match self2._client with
        | some _ => pure (1, self2, w10)
        | none => pure (0, self2, w10)
      else
        let w8 := tcp_connect w7 pcb ip port ._s_connected_nb
        pure (-1, self1, w8)

/-- The method `WiFiClient::connectex(const char* host, uint16_t port, bool block)`. -/
def connectexHost (self : WiFiClient) (w : World) (host : String) (port : Nat) (block : Bool)
    (env : Env) : Except Fault (Int × WiFiClient × World) :=
  match env.hostByName host with
  | some remote_addr => connectex self w remote_addr port block env
  | none => pure (0, self, w)

/-- The method `WiFiClient::setNoDelay`. -/
def setNoDelay (self : WiFiClient) (w : World) (nodelay : Bool) : Except Fault World :=
  match self._client with
  | none => pure w
  | some p => ClientContext.setNoDelay w p nodelay

/-- The method `WiFiClient::getNoDelay`. -/
def getNoDelay (self : WiFiClient) (w : World) : Except Fault Bool :=
  match self._client with
  | none => pure false
  | some p => do
    let c ← deref w p
    pure (ClientContext.getNoDelay w c)

/-- The method `WiFiClient::write(const uint8_t *buf, size_t size)`. -/
def write (self : WiFiClient) (w : World) (size room : Nat) : Except Fault (Nat × World) :=
  match self._client with
  | none => pure (0, w)
  | some p =>
    if size = 0 then pure (0, w)
    else ClientContext.write w p size room

/-- The method `WiFiClient::write(uint8_t b)`. -/
def writeByte (self : WiFiClient) (w : World) (room : Nat) : Except Fault (Nat × World) :=
  write self w 1 room

/-- The method `WiFiClient::available`. -/
def available (self : WiFiClient) (w : World) : Except Fault (Int × World) :=
  match self._client with
  | none => pure (0, w)
  | some p => do
    let c ← deref w p
    let result := toInt32 (ClientContext.getSize c)
    if result = 0 then
      pure (result, w.call (.optimistic_yield 100))
    else
      pure (result, w)

/-- The method `WiFiClient::read()`. -/
def read (self : WiFiClient) (w : World) : Except Fault (Int × World) := do
  let (n, w1) ← available self w
  if n = 0 then
    pure (-1, w1)
  else
    match self._client with
    | none => throw .nullDeref
    | some p => ClientContext.read w1 p

/-- The method `WiFiClient::read(uint8_t* buf, size_t size)`: returns the count and the
bytes stored into `buf`. -/
def readBuf (self : WiFiClient) (w : World) (size : Nat) :
    Except Fault (Int × List Nat × World) :=
  match self._client with
  | none => throw .nullDeref
  | some p => do
    let (n, bytes, w1) ← ClientContext.readBuf w p size
    pure (toInt32 n, bytes, w1)

/-- The method `WiFiClient::peek`. -/
def peek (self : WiFiClient) (w : World) : Except Fault (Int × World) := do
  let (n, w1) ← available self w
  if n = 0 then
    pure (-1, w1)
  else
    match self._client with
    | none => throw .nullDeref
    | some p => do
      let b ← ClientContext.peek w1 p
      pure (b, w1)

/-- The method `WiFiClient::flush`. -/
def flush (self : WiFiClient) (w : World) : Except Fault World :=
  match self._client with
  | some p => ClientContext.flush w p
  | none => pure w

/-- The method `WiFiClient::connected`. -/
def connected (self : WiFiClient) (w : World) : Except Fault (Nat × World) :=
  match self._client with
  | none => pure (0, w)
  | some p => do
    let c ← deref w p
    if ClientContext.state w c = ESTABLISHED then
      pure (1, w)
    else
      let (n, w1) ← available self w
      pure (if n ≠ 0 then 1 else 0, w1)

/-- The method `WiFiClient::status`. -/
def status (self : WiFiClient) (w : World) : Except Fault Nat :=
  match self._client with
  | none => pure CLOSED
  | some p => do
    let c ← deref w p
    pure (ClientContext.state w c)

/-- The conversion `WiFiClient::operator bool`. -/
def toBool (self : WiFiClient) : Bool :=
  self._client != none

/-- The method `WiFiClient::remoteIP`. -/
def remoteIP (self : WiFiClient) (w : World) : Except Fault Nat :=
  match self._client with
  | none => pure 0
  | some p => do
    let c ← deref w p
    pure (ClientContext.getRemoteAddress w c)

/-- The method `WiFiClient::remotePort`. -/
def remotePort (self : WiFiClient) (w : World) : Except Fault Nat :=
  match self._client with
  | none => pure 0
  | some p => do
    let c ← deref w p
    pure (ClientContext.getRemotePort w c)

end WiFiClient

/-! ## The registry of live handles, constructors, destructor, assignment -/

/-- The live handle objects in the order of the intrusive list `_s_first`, and the
state they share. -/
structure Sys where
  _s_first : List WiFiClient
  world : World

/-- Modelled from the spec: `SList<WiFiClient>::_add` (slist.h is absent): the handle
joins the registry, at the head of the list. -/
def _add (reg : List WiFiClient) (h : WiFiClient) : List WiFiClient :=
  h :: reg

/-- Modelled from the spec: `SList<WiFiClient>::_remove` (slist.h is absent): the
handle at this address leaves the registry. -/
def _remove (reg : List WiFiClient) (addr : Nat) : List WiFiClient :=
  reg.filter (fun h => h.addr != addr)

/-- The live handle at an address. -/
def Sys.get (s : Sys) (addr : Nat) : Except Fault WiFiClient :=
  match s._s_first.find? (fun h => h.addr == addr) with
  | some h => .ok h
  | none => .error .badOp

/-- An address where a new handle can be constructed. -/
def Sys.fresh (s : Sys) (addr : Nat) : Except Fault Unit :=
  match s._s_first.find? (fun h => h.addr == addr) with
  | some _ => .error .badOp
  | none => .ok ()

/-- Write back the fields of the handle at `h.addr`. -/
def putHandle (reg : List WiFiClient) (h : WiFiClient) : List WiFiClient :=
  reg.map (fun x => if x.addr = h.addr then h else x)

/-- Number of registered handles whose `_client` is `c`. -/
def pointing (reg : List WiFiClient) (c : Nat) : Nat :=
  reg.countP (fun h => h._client = some c)

/-- The constructor `WiFiClient::WiFiClient()`. -/
def ctor (s : Sys) (addr : Nat) : Except Fault Sys := do
  s.fresh addr
  pure { s with _s_first := _add s._s_first { addr := addr, _client := none } }

/-- The constructor `WiFiClient::WiFiClient(ClientContext* client)`. -/
def ctorFromContext (s : Sys) (addr : Nat) (client : Option Nat) : Except Fault Sys := do
  s.fresh addr
  match client with
  | none => throw .nullDeref
  | some p =>
    let w1 ← ClientContext.ref s.world p
    pure { _s_first := _add s._s_first { addr := addr, _client := some p }, world := w1 }

/-- The destructor `WiFiClient::~WiFiClient()`. -/
def dtor (s : Sys) (addr : Nat) : Except Fault Sys := do
  let self ← s.get addr
  let reg := _remove s._s_first addr
  match self._client with
  | some p =>
    let w1 ← ClientContext.unref s.world p
    pure { _s_first := reg, world := w1 }
  | none => pure { _s_first := reg, world := s.world }

/-- The copy constructor `WiFiClient::WiFiClient(const WiFiClient& other)`. -/
def copyCtor (s : Sys) (addr other : Nat) : Except Fault Sys := do
  s.fresh addr
  let o ← s.get other
  match o._client with
  | some p =>
    let w1 ← ClientContext.ref s.world p
    pure { _s_first := _add s._s_first { addr := addr, _client := some p }, world := w1 }
  | none =>
    pure { s with _s_first := _add s._s_first { addr := addr, _client := none } }

/-- The assignment `WiFiClient::operator=(const WiFiClient& other)` executed on the
handle at `addr`. -/
def assign (s : Sys) (addr other : Nat) : Except Fault Sys := do
  let self ← s.get addr
  let w1 ← (match self._client with
    | some p => ClientContext.unref s.world p
    | none => pure s.world)
  let o ← s.get other
  let self1 : WiFiClient := { self with _client := o._client }
  let w2 ← (match self1._client with
    | some q => ClientContext.ref w1 q
    | none => pure w1)
  pure { _s_first := putHandle s._s_first self1, world := w2 }

/-- The method `WiFiClient::stop` executed on the handle at `addr`. -/
def stopAt (s : Sys) (addr : Nat) : Except Fault Sys := do
  let self ← s.get addr
  let (self1, w1) ← WiFiClient.stop self s.world
  pure { _s_first := putHandle s._s_first self1, world := w1 }

/-- The method `WiFiClient::connectex(IPAddress, ...)` executed on the handle at
`addr`; returns the value returned to the caller. -/
def connectexAt (s : Sys) (addr ip port : Nat) (block : Bool) (env : Env) :
    Except Fault (Int × Sys) := do
  let self ← s.get addr
  let (r, self1, w1) ← WiFiClient.connectex self s.world ip port block env
  pure (r, { _s_first := putHandle s._s_first self1, world := w1 })

/-- The loop of `WiFiClient::stopAll` from the list node `it` on. -/
def stopAllLoop : List WiFiClient → World → Except Fault (List WiFiClient × World)
  | [], w => pure ([], w)
  | it :: rest, w =>
    match it._client with
    | some c => do
      let w1 ← ClientContext.abort w c
      let w2 ← ClientContext.unref w1 c
      let (rest1, w3) ← stopAllLoop rest w2
      pure ({ it with _client := none } :: rest1, w3)
    | none => do
      let (rest1, w3) ← stopAllLoop rest w
      pure (it :: rest1, w3)

/-- The static method `WiFiClient::stopAll`. -/
def stopAll (s : Sys) : Except Fault Sys := do
  let (reg, w) ← stopAllLoop s._s_first s.world
  pure { _s_first := reg, world := w }

/-- The operations on handles that touch reference counts. -/
inductive Op where
  /-- construct the handle at `addr` from the context at `client` -/
  | construct (addr client : Nat)
  /-- copy-construct the handle at `addr` from the handle at `other` -/
  | copy (addr other : Nat)
  /-- the assignment: handle at `addr` = handle at `other` -/
  | assign (addr other : Nat)
  /-- the call of stop on the handle at `addr` -/
  | stop (addr : Nat)
  /-- destroy the handle at `addr` -/
  | destroy (addr : Nat)
  deriving DecidableEq, Repr

/-- One operation. -/
def step (s : Sys) : Op → Except Fault Sys
  | .construct addr client => ctorFromContext s addr (some client)
  | .copy addr other => copyCtor s addr other
  | .assign addr other => assign s addr other
  | .stop addr => stopAt s addr
  | .destroy addr => dtor s addr

/-- A sequence of operations, stopping at the first fault. -/
def run (s : Sys) : List Op → Except Fault Sys
  | [] => pure s
  | op :: ops => do
    let s1 ← step s op
    run s1 ops

/-- A world holding one context at address 0 that wraps the established raw
connection 0 and has no reference yet (as handed over by a listener). -/
def World.oneContext : World :=
  { heap := Function.update (fun _ => none) 0 (some { pcb := some 0, refcnt := 0, rx := [] }),
    brk := 1,
    pcbs := Function.update (fun _ => none) 0
      (some { fate := .live, state := ESTABLISHED, local_port := 0, remote_ip := 1,
              remote_port := 80, nodelay := false, callback_arg := none, errf := false,
              connected := none }),
    npcb := 1, _localPort := 0, log := [], released := [] }

/-- The handle's pointer is null or points to an allocated context. -/
def WiFiClient.valid (self : WiFiClient) (w : World) : Bool :=
  match self._client with
  | none => true
  | some p => (w.heap p).isSome

/-- The callbacks registered on a raw connection: argument, error callback,
connected callback. -/
def registered (b : Option tcp_pcb) : Option (Option Nat × Bool × Option ConnectedFn) :=
  b.map (fun x => (x.callback_arg, x.errf, x.connected))

/-- The first world differs from the second at most by contexts and by the fate of
raw connections: same calls logged, same allocation marks, same port counter, same
callbacks registered. -/
def SameStack (w1 w : World) : Prop :=
  w1.log = w.log ∧ w1.npcb = w.npcb ∧ w1._localPort = w._localPort ∧ w1.brk = w.brk ∧
    ∀ i, registered (w1.pcbs i) = registered (w.pcbs i)

/-- The world once the set-up part of `connectex` (route lookup, `tcp_new`, local
port, `tcp_arg`, `tcp_err`) has run with a route and a successful allocation, for the
handle at address `arg`. Used to state what `connectex` returns. -/
def World.afterSetup (w : World) (ip arg : Nat) : World :=
  let w3 := (w.call (.ip_route ip)).call .tcp_new
  let w4 := (tcp_new w3).2
  let w5 :=
    if w4._localPort > 0 then
      { (w4.modPcb w.npcb (fun b => { b with local_port := w4._localPort })) with
        _localPort := (w4._localPort + 1) % 65536 }
    else w4
  tcp_err (tcp_arg w5 w.npcb arg) w.npcb

/-! ## Concrete inputs -/

/-- The world `World.oneContext` after one handle was constructed from its context. -/
def World.oneHandle : World :=
  World.oneContext.store 0 { pcb := some 0, refcnt := 1, rx := [] }

/-- A handle at address 10 holding the context at address 0. -/
def handle10 : WiFiClient := { addr := 10, _client := some 0 }

/-- A handle at address 10 without context. -/
def idle10 : WiFiClient := { addr := 10, _client := none }

/-- Collaborators for a reachable peer: names resolve to address 7, a route exists,
allocation succeeds, the connected callback fires. -/
def Env.reachable : Env :=
  { hostByName := fun _ => some 7, ip_route := fun _ => true, tcp_new_ok := true,
    fires := .connected }

/-- Collaborators when no interface routes the destination. -/
def Env.unroutable : Env :=
  { hostByName := fun _ => some 7, ip_route := fun _ => false, tcp_new_ok := true,
    fires := .connected }

/-- Collaborators when name resolution fails. -/
def Env.unresolved : Env :=
  { hostByName := fun _ => none, ip_route := fun _ => true, tcp_new_ok := true,
    fires := .connected }

/-- The unread byte count of the handle's context (if any) fits the 32-bit `size_t`
of the target. -/
def WiFiClient.sizeInRange (self : WiFiClient) (w : World) : Bool :=
  match self._client with
  | none => true
  | some p =>
    match w.heap p with
    | none => true
    | some c => decide (ClientContext.getSize c < 4294967296)

/-- A world where the peer of the one connection has closed (raw connection 0 is in
CLOSE_WAIT, state 7) while two received bytes are still unread. -/
def World.peerClosed : World :=
  { heap := Function.update (fun _ => none) 0
      (some { pcb := some 0, refcnt := 1, rx := [104, 105] }),
    brk := 1,
    pcbs := Function.update (fun _ => none) 0
      (some { fate := .live, state := 7, local_port := 0, remote_ip := 1,
              remote_port := 80, nodelay := false, callback_arg := none, errf := false,
              connected := none }),
    npcb := 1, _localPort := 0, log := [], released := [] }

/-! ## Predicates for the registry -/

/-- Every context held by a registered handle is allocated and counts at least as
many references as there are registered handles holding it. -/
def refsCover (reg : List WiFiClient) (w : World) : Bool :=
  reg.all (fun h =>
    match h._client with
    | none => true
    | some c =>
      match w.heap c with
      | none => false
      | some ctx => decide ((pointing reg c : Int) ≤ ctx.refcnt))

/-- The raw connection `i` is wrapped by a context that some registered handle
holds. -/
def held (reg : List WiFiClient) (w : World) (i : Nat) : Prop :=
  ∃ c ctx, 0 < pointing reg c ∧ w.heap c = some ctx ∧ ctx.pcb = some i

/-- The raw connection after it was aborted. -/
def tcp_pcb.abortedOne (b : tcp_pcb) : tcp_pcb :=
  { b with fate := .aborted }

/-- What `stopAll` leaves of a context that `k` registered handles held. -/
def afterStopAll (k : Nat) (c : Option ClientContext) : Option ClientContext :=
  match c with
  | none => none
  | some ctx =>
    if k = 0 then some ctx
    else if ctx.refcnt = k then none
    else some { pcb := none, refcnt := ctx.refcnt - k, rx := ctx.rx }

/-- A registry of three handles: two share the context at address 0 (two
references), one holds none. -/
def Sys.twoSharing : Sys :=
  { _s_first := [{ addr := 12, _client := none }, { addr := 11, _client := some 0 }, handle10],
    world := World.oneContext.store 0 { pcb := some 0, refcnt := 2, rx := [] } }

/-- A registry with a connected handle (address 10, context 0 on raw connection 0)
and a connecting handle (address 11): raw connection 1 was created for it by a
non-blocking connect and carries it as callback argument, no context exists yet. -/
def Sys.connecting : Sys :=
  { _s_first := [{ addr := 11, _client := none }, handle10],
    world :=
      { World.oneHandle with
        pcbs := Function.update World.oneHandle.pcbs 1
          (some { fate := .live, state := SYN_SENT, local_port := 0, remote_ip := 7,
                  remote_port := 80, nodelay := false, callback_arg := some 11, errf := true,
                  connected := some ._s_connected_nb })
        npcb := 2 } }

/-! ## Predicates for reference counting -/

/-- Reference counts agree with the registry: handle addresses are distinct; every
allocated context counts exactly the registered handles pointing to it and has not
been released; a freed context has no registered handle pointing to it and was
released at most once. -/
def CountedAt (reg : List WiFiClient) (heap : Nat → Option ClientContext)
    (released : List Nat) : Prop :=
  (reg.map (fun h => h.addr)).Nodup ∧
  (∀ c ctx, heap c = some ctx → ctx.refcnt = (pointing reg c : Int) ∧ c ∉ released) ∧
  (∀ c, heap c = none → pointing reg c = 0 ∧ released.count c ≤ 1)

/-- The invariant `CountedAt` of a system state. -/
def Counted (s : Sys) : Prop :=
  CountedAt s._s_first s.world.heap s.world.released

/-- A live handle object exists at this address. -/
def Sys.live (s : Sys) (addr : Nat) : Bool :=
  (s._s_first.find? (fun h => h.addr == addr)).isSome

/-- The assignment is a self-assignment of the only handle holding its context. -/
def soleSelfAssign (s : Sys) (addr other : Nat) : Bool :=
  addr == other &&
    match s._s_first.find? (fun h => h.addr == addr) with
    | none => false
    | some h =>
      match h._client with
      | none => false
      | some p => pointing s._s_first p == 1

/-- The operation is one a program can perform in this state, and is not the
self-assignment of a sole holder: new handles are constructed at unused addresses
from an allocated context or a live handle; the other operations name live handles. -/
def Op.applicable (s : Sys) : Op → Bool
  | .construct addr client => !s.live addr && (s.world.heap client).isSome
  | .copy addr other => !s.live addr && s.live other
  | .assign addr other => s.live addr && s.live other && !soleSelfAssign s addr other
  | .stop addr => s.live addr
  | .destroy addr => s.live addr

/-- Every operation of the sequence is applicable in the state it is executed in. -/
def applicableAll (s : Sys) : List Op → Bool
  | [] => true
  | op :: ops =>
    op.applicable s &&
      match step s op with
      | .ok s1 => applicableAll s1 ops
      | .error _ => false

/-- The state before any handle exists: the context at address 0 of
`World.oneContext`, no handle registered. -/
def Sys.initial : Sys :=
  { _s_first := [], world := World.oneContext }

/-! ## Basic facts -/

theorem SameStack.rfl_ (w : World) : SameStack w w :=
  ⟨rfl, rfl, rfl, rfl, fun _ => rfl⟩

theorem registered_setFate (w : World) (i : Nat) (f : PcbFate) (j : Nat) :
    registered ((w.setFate i f).pcbs j) = registered (w.pcbs j) := by
  unfold World.setFate World.modPcb registered
  by_cases h : j = i
  · subst h
    cases hb : w.pcbs j <;> simp [hb]
  · simp [Function.update_noteq h]

theorem unref_ok (w : World) (p : Nat) (c : ClientContext) (h : w.heap p = some c) :
    ∃ w1, ClientContext.unref w p = .ok w1 ∧ SameStack w1 w := by
  unfold ClientContext.unref deref
  simp only [h, bind, Except.bind, pure, Except.pure]
  by_cases hz : c.refcnt - 1 = 0
  · simp only [hz, if_true]
    refine ⟨_, rfl, ?_⟩
    unfold ClientContext.release
    cases hp : c.pcb with
    | none => exact ⟨rfl, rfl, rfl, rfl, fun _ => rfl⟩
    | some i => exact ⟨rfl, rfl, rfl, rfl, fun j => registered_setFate w i _ j⟩
  · simp only [hz, if_false]
    exact ⟨_, rfl, rfl, rfl, rfl, rfl, fun _ => rfl⟩

theorem stop_ok (self : WiFiClient) (w : World) (hv : self.valid w = true) :
    ∃ w1, WiFiClient.stop self w = .ok ({ self with _client := none }, w1) ∧ SameStack w1 w := by
  unfold WiFiClient.stop
  cases hc : self._client with
  | none =>
    refine ⟨w, ?_, SameStack.rfl_ w⟩
    cases self
    simp_all [pure, Except.pure]
  | some p =>
    have hv1 : (w.heap p).isSome = true := by simpa [WiFiClient.valid, hc] using hv
    obtain ⟨c, hcx⟩ := Option.isSome_iff_exists.mp hv1
    obtain ⟨w1, h1, h2⟩ := unref_ok w p c hcx
    refine ⟨w1, ?_, h2⟩
    simp [h1, bind, Except.bind, pure, Except.pure]

/-- A connect first stops the handle, then runs as on a handle without context. -/
theorem connectex_after_stop (self : WiFiClient) (w : World) (ip port : Nat) (block : Bool)
    (env : Env) (hv : self.valid w = true) :
    ∃ w1, SameStack w1 w ∧
      WiFiClient.connectex self w ip port block env =
        WiFiClient.connectex { self with _client := none } w1 ip port block env := by
  cases hc : self._client with
  | none =>
    refine ⟨w, SameStack.rfl_ w, ?_⟩
    cases self
    simp_all
  | some p =>
    obtain ⟨w1, h1, h2⟩ := stop_ok self w hv
    refine ⟨w1, h2, ?_⟩
    unfold WiFiClient.connectex
    simp only [hc, h1, bind, Except.bind, pure, Except.pure]

/-! ## Connect: unroutable destination -/

theorem connectex_none_no_route (self : WiFiClient) (w : World) (ip port : Nat) (block : Bool)
    (env : Env) (hc : self._client = none) (hr : env.ip_route ip = false) :
    WiFiClient.connectex self w ip port block env = .ok (0, self, w.call (.ip_route ip)) := by
  unfold WiFiClient.connectex
  simp [hc, hr, bind, Except.bind, pure, Except.pure]

/-- C2: `connectex(ip, port, block)` with no route for `ip` returns 0 for every valid
handle, port and blocking flag; the only collaborator called is the route lookup (so
no `tcp_new`, no `tcp_arg`, `tcp_err` or `tcp_connect`, no `esp_yield`), no raw
connection is allocated, no callback registration changes, and the handle has no
context afterwards. -/
theorem connectex_no_route (self : WiFiClient) (w : World) (ip port : Nat) (block : Bool)
    (env : Env) (hv : self.valid w = true) (hr : env.ip_route ip = false) :
    ∃ self1 w1, WiFiClient.connectex self w ip port block env = .ok (0, self1, w1) ∧
      self1._client = none ∧ self1.addr = self.addr ∧
      w1.log = w.log ++ [Call.ip_route ip] ∧
      w1.npcb = w.npcb ∧
      ∀ i, registered (w1.pcbs i) = registered (w.pcbs i) := by
  obtain ⟨w0, hs, he⟩ := connectex_after_stop self w ip port block env hv
  rw [he, connectex_none_no_route _ w0 ip port block env rfl hr]
  obtain ⟨h1, h2, -, -, h5⟩ := hs
  exact ⟨_, _, rfl, rfl, rfl, by simp [World.call, h1], by simp [World.call, h2], h5⟩

/-- The theorem `connectex_no_route` at a connected handle. -/
theorem connectex_no_route_witness :
    handle10.valid World.oneHandle = true ∧ Env.unroutable.ip_route 7 = false ∧
    ∃ self1 w1,
      WiFiClient.connectex handle10 World.oneHandle 7 80 true Env.unroutable =
        .ok (0, self1, w1) ∧
      self1._client = none ∧ self1.addr = handle10.addr ∧
      w1.log = World.oneHandle.log ++ [Call.ip_route 7] ∧
      w1.npcb = World.oneHandle.npcb ∧
      ∀ i, registered (w1.pcbs i) = registered (World.oneHandle.pcbs i) :=
  ⟨by decide, rfl,
    connectex_no_route handle10 World.oneHandle 7 80 true Env.unroutable (by decide) rfl⟩

/-! ## Connect: the paths of `connectex` on a handle without context -/

theorem connectex_none_no_alloc (self : WiFiClient) (w : World) (ip port : Nat) (block : Bool)
    (env : Env) (hc : self._client = none) (hr : env.ip_route ip = true)
    (ha : env.tcp_new_ok = false) :
    WiFiClient.connectex self w ip port block env =
      .ok (0, self, (w.call (.ip_route ip)).call .tcp_new) := by
  unfold WiFiClient.connectex
  simp [hc, hr, ha, bind, Except.bind, pure, Except.pure]

theorem connectex_none_nb (self : WiFiClient) (w : World) (ip port : Nat)
    (env : Env) (hc : self._client = none) (hr : env.ip_route ip = true)
    (ha : env.tcp_new_ok = true) :
    WiFiClient.connectex self w ip port false env =
      .ok (-1, self, tcp_connect (w.afterSetup ip self.addr) w.npcb ip port ._s_connected_nb) := by
  unfold WiFiClient.connectex World.afterSetup
  simp [hc, hr, ha, bind, Except.bind, pure, Except.pure, tcp_new, World.call]

theorem connectex_none_block (self : WiFiClient) (w : World) (ip port : Nat)
    (env : Env) (hc : self._client = none) (hr : env.ip_route ip = true)
    (ha : env.tcp_new_ok = true) :
    WiFiClient.connectex self w ip port true env =
      (WiFiClient.suspended self
        ((tcp_connect (w.afterSetup ip self.addr) w.npcb ip port ._s_connected).call .esp_yield)
        w.npcb env.fires).bind
        (fun r => match r.1._client with
          | some _ => .ok ((1 : Int), r.1, r.2)
          | none => .ok ((0 : Int), r.1, r.2)) := by
  unfold WiFiClient.connectex World.afterSetup
  simp [hc, hr, ha, bind, Except.bind, pure, Except.pure, tcp_new, World.call]

theorem afterSetup_log (w : World) (ip arg : Nat) :
    (w.afterSetup ip arg).log =
      w.log ++ [Call.ip_route ip, Call.tcp_new, Call.tcp_arg w.npcb arg, Call.tcp_err w.npcb] := by
  unfold World.afterSetup tcp_err tcp_arg tcp_new World.modPcb World.call
  by_cases h : 0 < w._localPort <;> simp [h]

theorem afterSetup_localPort (w : World) (ip arg : Nat) :
    (w.afterSetup ip arg)._localPort =
      if 0 < w._localPort then (w._localPort + 1) % 65536 else w._localPort := by
  unfold World.afterSetup tcp_err tcp_arg tcp_new World.modPcb World.call
  by_cases h : 0 < w._localPort <;> simp [h]

theorem afterSetup_heap (w : World) (ip arg : Nat) :
    (w.afterSetup ip arg).heap = w.heap ∧ (w.afterSetup ip arg).brk = w.brk ∧
      (w.afterSetup ip arg).npcb = w.npcb + 1 ∧
      (w.afterSetup ip arg).released = w.released := by
  unfold World.afterSetup tcp_err tcp_arg tcp_new World.modPcb World.call
  by_cases h : 0 < w._localPort <;> simp [h]

theorem afterSetup_pcb (w : World) (ip arg : Nat) :
    (w.afterSetup ip arg).pcbs w.npcb =
      some { fate := .live, state := CLOSED,
             local_port := if 0 < w._localPort then w._localPort else 0,
             remote_ip := 0, remote_port := 0, nodelay := false,
             callback_arg := some arg, errf := true, connected := none } := by
  unfold World.afterSetup tcp_err tcp_arg tcp_new World.modPcb World.call
  by_cases h : 0 < w._localPort <;> simp [h]

theorem afterSetup_pcb_other (w : World) (ip arg i : Nat) (hi : i ≠ w.npcb) :
    (w.afterSetup ip arg).pcbs i = w.pcbs i := by
  unfold World.afterSetup tcp_err tcp_arg tcp_new World.modPcb World.call
  by_cases h : 0 < w._localPort <;> simp [h, Function.update_noteq hi]

theorem connected_cb_ok (self : WiFiClient) (w : World) (tpcb : Nat) :
    ∃ w1, WiFiClient._connected self w tpcb =
        .ok (ERR_OK, { self with _client := some w.brk }, w1) ∧
      w1.heap w.brk = some { pcb := some tpcb, refcnt := 1, rx := [] } ∧
      w1.log = w.log ++ [Call.esp_schedule] ∧ w1._localPort = w._localPort ∧
      w1.npcb = w.npcb ∧ w1.pcbs = w.pcbs := by
  unfold WiFiClient._connected ClientContext.new ClientContext.ref deref
  simp [World.store, World.call, bind, Except.bind, pure, Except.pure]

theorem connected_nb_cb_ok (self : WiFiClient) (w : World) (tpcb : Nat) :
    ∃ w1, WiFiClient._connected_nb self w tpcb =
        .ok (ERR_OK, { self with _client := some w.brk }, w1) ∧
      w1.heap w.brk = some { pcb := some tpcb, refcnt := 1, rx := [] } ∧
      w1.log = w.log ∧ w1._localPort = w._localPort ∧
      w1.npcb = w.npcb ∧ w1.pcbs = w.pcbs := by
  unfold WiFiClient._connected_nb ClientContext.new ClientContext.ref deref
  simp [World.store, World.call, bind, Except.bind, pure, Except.pure]

theorem connectex_none_block_connected (self : WiFiClient) (w : World) (ip port : Nat)
    (env : Env) (hc : self._client = none) (hr : env.ip_route ip = true)
    (ha : env.tcp_new_ok = true) (hf : env.fires = StackEvent.connected) :
    ∃ w1, WiFiClient.connectex self w ip port true env =
        .ok (1, { self with _client := some w.brk }, w1) ∧
      w1.heap w.brk = some { pcb := some w.npcb, refcnt := 1, rx := [] } ∧
      w1._localPort = (w.afterSetup ip self.addr)._localPort ∧
      (w1.pcbs w.npcb).map (fun b => b.local_port) =
        some (if 0 < w._localPort then w._localPort else 0) ∧
      w1.log = w.log ++ [Call.ip_route ip, Call.tcp_new, Call.tcp_arg w.npcb self.addr,
        Call.tcp_err w.npcb, Call.tcp_connect w.npcb ip port ._s_connected, Call.esp_yield,
        Call.esp_schedule] := by
  rw [connectex_none_block self w ip port env hc hr ha, hf]
  unfold WiFiClient.suspended WiFiClient._s_connected
  obtain ⟨w1, h1, h2, h3, h4, h5, h6⟩ := connected_cb_ok self
    (((tcp_connect (w.afterSetup ip self.addr) w.npcb ip port ._s_connected).call
      .esp_yield).modPcb w.npcb (fun b => { b with state := ESTABLISHED })) w.npcb
  simp only [h1, bind, Except.bind, pure, Except.pure]
  refine ⟨w1, ?_, ?_, ?_, ?_, ?_⟩
  · simp [tcp_connect, World.call, World.modPcb, (afterSetup_heap w ip self.addr).2.1]
  · simpa [tcp_connect, World.call, World.modPcb, (afterSetup_heap w ip self.addr).2.1] using h2
  · rw [h4]; simp [tcp_connect, World.call, World.modPcb]
  · rw [h6]; simp [tcp_connect, World.call, World.modPcb, afterSetup_pcb]
  · rw [h3]; simp [tcp_connect, World.call, World.modPcb, afterSetup_log]

theorem connectex_none_block_err (self : WiFiClient) (w : World) (ip port : Nat)
    (env : Env) (hc : self._client = none) (hr : env.ip_route ip = true)
    (ha : env.tcp_new_ok = true) (hf : env.fires = StackEvent.err) :
    ∃ w1, WiFiClient.connectex self w ip port true env = .ok (0, self, w1) ∧
      w1._localPort = (w.afterSetup ip self.addr)._localPort ∧
      (w1.pcbs w.npcb).map (fun b => b.local_port) =
        some (if 0 < w._localPort then w._localPort else 0) ∧
      (w1.pcbs w.npcb).map (fun b => b.fate) = some PcbFate.aborted ∧
      w1.log = w.log ++ [Call.ip_route ip, Call.tcp_new, Call.tcp_arg w.npcb self.addr,
        Call.tcp_err w.npcb, Call.tcp_connect w.npcb ip port ._s_connected, Call.esp_yield,
        Call.esp_schedule] := by
  rw [connectex_none_block self w ip port env hc hr ha, hf]
  unfold WiFiClient.suspended WiFiClient._s_err WiFiClient._err
  simp only [bind, Except.bind, pure, Except.pure, hc]
  refine ⟨_, rfl, ?_, ?_, ?_, ?_⟩
  · simp [tcp_connect, World.call, World.modPcb, World.setFate]
  · simp [tcp_connect, World.call, World.modPcb, World.setFate, afterSetup_pcb]
  · simp [tcp_connect, World.call, World.modPcb, World.setFate, afterSetup_pcb]
  · simp [tcp_connect, World.call, World.modPcb, World.setFate, afterSetup_log]

/-! ## Connect: blocking mode -/

/-- C3: a blocking `connectex(ip, port, true)` on any valid handle returns, and it
either returns 1 with a context attached to the handle or returns 0 with the handle's
context absent; it returns 1 exactly when the call got as far as suspending and the
connected callback fired, and the context then held is the one that callback created
(one reference, wrapping the new raw connection). -/
theorem connectex_blocking_outcome (self : WiFiClient) (w : World) (ip port : Nat) (env : Env)
    (hv : self.valid w = true) :
    ∃ r self1 w1, WiFiClient.connectex self w ip port true env = .ok (r, self1, w1) ∧
      ((r = 1 ∧ self1._client ≠ none) ∨ (r = 0 ∧ self1._client = none)) ∧
      (r = 1 ↔ (env.ip_route ip = true ∧ env.tcp_new_ok = true ∧
          env.fires = StackEvent.connected)) ∧
      (r = 1 → self1._client = some w.brk ∧
        w1.heap w.brk = some { pcb := some w.npcb, refcnt := 1, rx := [] }) := by
  obtain ⟨w0, ⟨-, h2, -, h4, -⟩, he⟩ := connectex_after_stop self w ip port true env hv
  rw [he, ← h2, ← h4]
  cases hr : env.ip_route ip with
  | false =>
    rw [connectex_none_no_route _ w0 ip port true env rfl hr]
    exact ⟨0, _, _, rfl, Or.inr ⟨rfl, rfl⟩, by simp, by simp⟩
  | true =>
    cases ha : env.tcp_new_ok with
    | false =>
      rw [connectex_none_no_alloc _ w0 ip port true env rfl hr ha]
      exact ⟨0, _, _, rfl, Or.inr ⟨rfl, rfl⟩, by simp, by simp⟩
    | true =>
      cases hf : env.fires with
      | connected =>
        obtain ⟨w1, h1, hh, -⟩ :=
          connectex_none_block_connected { self with _client := none } w0 ip port env rfl hr ha hf
        exact ⟨1, _, w1, h1, Or.inl ⟨rfl, by simp⟩, by simp, fun _ => ⟨rfl, hh⟩⟩
      | err =>
        obtain ⟨w1, h1, -⟩ :=
          connectex_none_block_err { self with _client := none } w0 ip port env rfl hr ha hf
        exact ⟨0, _, w1, h1, Or.inr ⟨rfl, rfl⟩, by simp, by simp⟩

/-- The theorem `connectex_blocking_outcome` at a connected handle and a reachable
peer. -/
theorem connectex_blocking_outcome_witness :
    handle10.valid World.oneHandle = true ∧
    ∃ r self1 w1,
      WiFiClient.connectex handle10 World.oneHandle 7 80 true Env.reachable = .ok (r, self1, w1) ∧
      ((r = 1 ∧ self1._client ≠ none) ∨ (r = 0 ∧ self1._client = none)) ∧
      (r = 1 ↔ (Env.reachable.ip_route 7 = true ∧ Env.reachable.tcp_new_ok = true ∧
          Env.reachable.fires = StackEvent.connected)) ∧
      (r = 1 → self1._client = some World.oneHandle.brk ∧
        w1.heap World.oneHandle.brk =
          some { pcb := some World.oneHandle.npcb, refcnt := 1, rx := [] }) :=
  ⟨by decide, connectex_blocking_outcome handle10 World.oneHandle 7 80 Env.reachable (by decide)⟩

/-! ## Connect: non-blocking mode -/

/-- C4, as stated, fails: a non-blocking connect to a destination without route
returns 0, not the pending indicator. -/
theorem connectex_nonblocking_counterexample :
    WiFiClient.connectex idle10 World.empty 7 80 false Env.unroutable =
      .ok (0, idle10, World.empty.call (Call.ip_route 7)) :=
  connectex_none_no_route idle10 World.empty 7 80 false Env.unroutable rfl rfl

/-- C4 (amended): a non-blocking `connectex(ip, port, false)` on any valid handle
returns without suspending the caller (no `esp_yield` among its calls); it returns the
pending indicator -1 exactly when a route exists and the raw connection was allocated,
and 0 otherwise. When pending, the handle (without context) is the callback argument
and `_s_connected_nb` the connected callback of the new raw connection; when that
callback fires later, in whatever world, it attaches a new context holding one
reference to the handle and issues no resume signal. -/
theorem connectex_nonblocking (self : WiFiClient) (w : World) (ip port : Nat) (env : Env)
    (hv : self.valid w = true) :
    ∃ r self1 w1 calls,
      WiFiClient.connectex self w ip port false env = .ok (r, self1, w1) ∧
      w1.log = w.log ++ calls ∧ Call.esp_yield ∉ calls ∧
      self1._client = none ∧ self1.addr = self.addr ∧
      (r = -1 ∨ r = 0) ∧
      (r = -1 ↔ (env.ip_route ip = true ∧ env.tcp_new_ok = true)) ∧
      (r = -1 → (w1.pcbs w.npcb).map (fun b => (b.fate, b.callback_arg, b.connected)) =
          some (PcbFate.live, some self.addr, some ConnectedFn._s_connected_nb)) ∧
      ∀ wl : World, ∃ w2,
        WiFiClient._s_connected_nb self1 wl w.npcb =
          .ok (ERR_OK, { self1 with _client := some wl.brk }, w2) ∧
        w2.heap wl.brk = some { pcb := some w.npcb, refcnt := 1, rx := [] } ∧
        w2.log = wl.log := by
  obtain ⟨w0, ⟨h1, h2, -, -, -⟩, he⟩ := connectex_after_stop self w ip port false env hv
  have hcb : ∀ (s : WiFiClient) (wl : World), ∃ w2,
      WiFiClient._s_connected_nb s wl w.npcb =
        .ok (ERR_OK, { s with _client := some wl.brk }, w2) ∧
      w2.heap wl.brk = some { pcb := some w.npcb, refcnt := 1, rx := [] } ∧ w2.log = wl.log := by
    intro s wl
    obtain ⟨w2, a, b, c, -⟩ := connected_nb_cb_ok s wl w.npcb
    exact ⟨w2, a, b, c⟩
  rw [he, ← h1, ← h2]
  cases hr : env.ip_route ip with
  | false =>
    rw [connectex_none_no_route _ w0 ip port false env rfl hr]
    refine ⟨0, { self with _client := none }, _, [Call.ip_route ip], rfl, rfl, by simp, rfl,
      rfl, Or.inr rfl, by simp, by simp, ?_⟩
    rw [h2]; exact hcb _
  | true =>
    cases ha : env.tcp_new_ok with
    | false =>
      rw [connectex_none_no_alloc _ w0 ip port false env rfl hr ha]
      refine ⟨0, { self with _client := none }, _, [Call.ip_route ip, Call.tcp_new], rfl,
        by simp [World.call], by simp, rfl, rfl, Or.inr rfl, by simp, by simp, ?_⟩
      rw [h2]; exact hcb _
    | true =>
      rw [connectex_none_nb _ w0 ip port env rfl hr ha]
      refine ⟨-1, { self with _client := none }, _,
        [Call.ip_route ip, Call.tcp_new, Call.tcp_arg w0.npcb self.addr,
        Call.tcp_err w0.npcb, Call.tcp_connect w0.npcb ip port ._s_connected_nb], rfl, ?_,
        by simp, rfl, rfl, Or.inl rfl, by simp, ?_, ?_⟩
      · simp [tcp_connect, World.call, World.modPcb, afterSetup_log]
      · intro _
        simp [tcp_connect, World.call, World.modPcb, afterSetup_pcb]
      · rw [h2]; exact hcb _

/-- The theorem `connectex_nonblocking` at a connected handle and a reachable peer. -/
theorem connectex_nonblocking_witness :
    handle10.valid World.oneHandle = true ∧
    ∃ r self1 w1 calls,
      WiFiClient.connectex handle10 World.oneHandle 7 80 false Env.reachable =
        .ok (r, self1, w1) ∧
      w1.log = World.oneHandle.log ++ calls ∧ Call.esp_yield ∉ calls ∧
      self1._client = none ∧ self1.addr = handle10.addr ∧
      (r = -1 ∨ r = 0) ∧
      (r = -1 ↔ (Env.reachable.ip_route 7 = true ∧ Env.reachable.tcp_new_ok = true)) ∧
      (r = -1 → (w1.pcbs World.oneHandle.npcb).map
          (fun b => (b.fate, b.callback_arg, b.connected)) =
          some (PcbFate.live, some handle10.addr, some ConnectedFn._s_connected_nb)) ∧
      ∀ wl : World, ∃ w2,
        WiFiClient._s_connected_nb self1 wl World.oneHandle.npcb =
          .ok (ERR_OK, { self1 with _client := some wl.brk }, w2) ∧
        w2.heap wl.brk = some { pcb := some World.oneHandle.npcb, refcnt := 1, rx := [] } ∧
        w2.log = wl.log :=
  ⟨by decide, connectex_nonblocking handle10 World.oneHandle 7 80 Env.reachable (by decide)⟩

/-! ## Connect: failure leaves no context; the local-port counter -/

/-- Every path of `connectex` on a valid handle: it returns; a return value 0 comes
with an absent context; the port counter moves only once a raw connection was
allocated. -/
theorem connectex_total (self : WiFiClient) (w : World) (ip port : Nat) (block : Bool)
    (env : Env) (hv : self.valid w = true) :
    ∃ r self1 w1, WiFiClient.connectex self w ip port block env = .ok (r, self1, w1) ∧
      (r = 0 → self1._client = none) ∧
      ((env.ip_route ip = false ∨ env.tcp_new_ok = false) →
        r = 0 ∧ w1._localPort = w._localPort ∧ w1.npcb = w.npcb) ∧
      (env.ip_route ip = true → env.tcp_new_ok = true →
        w1._localPort = (if 0 < w._localPort then (w._localPort + 1) % 65536 else w._localPort) ∧
        (w1.pcbs w.npcb).map (fun b => b.local_port) =
          some (if 0 < w._localPort then w._localPort else 0)) := by
  obtain ⟨w0, ⟨-, h2, h3, -, -⟩, he⟩ := connectex_after_stop self w ip port block env hv
  rw [he, ← h2, ← h3]
  cases hr : env.ip_route ip with
  | false =>
    rw [connectex_none_no_route _ w0 ip port block env rfl hr]
    exact ⟨0, { self with _client := none }, _, rfl, fun _ => rfl,
      fun _ => ⟨rfl, rfl, rfl⟩, by simp⟩
  | true =>
    cases ha : env.tcp_new_ok with
    | false =>
      rw [connectex_none_no_alloc _ w0 ip port block env rfl hr ha]
      exact ⟨0, { self with _client := none }, _, rfl, fun _ => rfl,
        fun _ => ⟨rfl, rfl, rfl⟩, by simp⟩
    | true =>
      cases block with
      | false =>
        rw [connectex_none_nb _ w0 ip port env rfl hr ha]
        refine ⟨-1, { self with _client := none }, _, rfl, fun _ => rfl, by simp, ?_⟩
        intro _ _
        constructor
        · simp [tcp_connect, World.call, World.modPcb, afterSetup_localPort]
        · simp [tcp_connect, World.call, World.modPcb, afterSetup_pcb]
      | true =>
        cases hf : env.fires with
        | connected =>
          obtain ⟨w1, h1, -, hp, hl, -⟩ :=
            connectex_none_block_connected { self with _client := none } w0 ip port env rfl hr
              ha hf
          refine ⟨1, _, w1, h1, by simp, by simp, fun _ _ => ⟨?_, hl⟩⟩
          rw [hp, afterSetup_localPort]
        | err =>
          obtain ⟨w1, h1, hp, hl, -⟩ :=
            connectex_none_block_err { self with _client := none } w0 ip port env rfl hr ha hf
          refine ⟨0, _, w1, h1, fun _ => rfl, by simp, fun _ _ => ⟨?_, hl⟩⟩
          rw [hp, afterSetup_localPort]

/-- C9, as stated, fails: connect by host name on a handle that holds a context, with
name resolution failing, returns 0 and the handle still holds its context. -/
theorem connect_failure_counterexample :
    WiFiClient.connectexHost handle10 World.oneHandle "nowhere" 80 true Env.unresolved =
        .ok (0, handle10, World.oneHandle) ∧
      handle10._client = some 0 :=
  ⟨rfl, rfl⟩

/-- C9 (amended): on a valid handle both connect entry points return. When connect
by IP address returns 0 (no route, allocation failure, or the error callback resumed a
blocking caller) the handle's context is absent. When connect by host name returns 0
after the name resolved, the same holds; when name resolution fails it returns 0 and
leaves the handle and the shared state exactly as they were, so the handle's context
is absent only if it was absent before the call. -/
theorem connect_failure_state (self : WiFiClient) (w : World) (host : String) (ip port : Nat)
    (block : Bool) (env : Env) (hv : self.valid w = true) :
    (∃ r self1 w1, WiFiClient.connectex self w ip port block env = .ok (r, self1, w1) ∧
      (r = 0 → self1._client = none)) ∧
    (∃ r self1 w1, WiFiClient.connectexHost self w host port block env = .ok (r, self1, w1) ∧
      (env.hostByName host ≠ none → r = 0 → self1._client = none) ∧
      (env.hostByName host = none → r = 0 ∧ self1 = self ∧ w1 = w)) := by
  constructor
  · obtain ⟨r, s1, w1, h, h0, -⟩ := connectex_total self w ip port block env hv
    exact ⟨r, s1, w1, h, h0⟩
  · unfold WiFiClient.connectexHost
    cases hh : env.hostByName host with
    | none => exact ⟨0, self, w, rfl, by simp, fun _ => ⟨rfl, rfl, rfl⟩⟩
    | some a =>
      obtain ⟨r, s1, w1, h, h0, -⟩ := connectex_total self w a port block env hv
      exact ⟨r, s1, w1, h, fun _ => h0, by simp⟩

/-- The theorem `connect_failure_state` at a connected handle when no interface
routes the destination. -/
theorem connect_failure_state_witness :
    handle10.valid World.oneHandle = true ∧
    (∃ r self1 w1,
      WiFiClient.connectex handle10 World.oneHandle 7 80 true Env.unroutable =
        .ok (r, self1, w1) ∧
      (r = 0 → self1._client = none)) ∧
    (∃ r self1 w1,
      WiFiClient.connectexHost handle10 World.oneHandle "peer" 80 true Env.unroutable =
        .ok (r, self1, w1) ∧
      (Env.unroutable.hostByName "peer" ≠ none → r = 0 → self1._client = none) ∧
      (Env.unroutable.hostByName "peer" = none → r = 0 ∧ self1 = handle10 ∧
        w1 = World.oneHandle)) :=
  ⟨by decide,
    connect_failure_state handle10 World.oneHandle "peer" 7 80 true Env.unroutable (by decide)⟩

/-- C10: on a valid handle, with `p` the value of the shared counter `_localPort`
before the call. A connect that fails before allocation (no route, or `tcp_new`
fails) returns 0 and leaves the counter and the stack's allocations unchanged. A
connect that allocates a raw connection: if `p > 0` the raw connection's local port is
`p` and the counter becomes `(p + 1) mod 2^16`, that is `p + 1` below 65535 and 0 at
65535; if `p = 0` the local port stays what `tcp_new` gave (0, none assigned) and the
counter stays 0. -/
theorem localPort_counter (self : WiFiClient) (w : World) (ip port : Nat) (block : Bool)
    (env : Env) (hv : self.valid w = true) :
    ∃ r self1 w1, WiFiClient.connectex self w ip port block env = .ok (r, self1, w1) ∧
      ((env.ip_route ip = false ∨ env.tcp_new_ok = false) →
        r = 0 ∧ w1._localPort = w._localPort ∧ w1.npcb = w.npcb) ∧
      (env.ip_route ip = true → env.tcp_new_ok = true →
        (0 < w._localPort →
          (w1.pcbs w.npcb).map (fun b => b.local_port) = some w._localPort ∧
          w1._localPort = (w._localPort + 1) % 65536 ∧
          (w._localPort < 65535 → w1._localPort = w._localPort + 1) ∧
          (w._localPort = 65535 → w1._localPort = 0)) ∧
        (w._localPort = 0 →
          (w1.pcbs w.npcb).map (fun b => b.local_port) = some 0 ∧ w1._localPort = 0)) := by
  obtain ⟨r, s1, w1, h, -, hfail, hok⟩ := connectex_total self w ip port block env hv
  refine ⟨r, s1, w1, h, hfail, fun hr ha => ?_⟩
  obtain ⟨hp, hl⟩ := hok hr ha
  constructor
  · intro hpos
    rw [if_pos hpos] at hp hl
    refine ⟨hl, hp, fun hlt => ?_, fun heq => ?_⟩
    · rw [hp]; omega
    · rw [hp, heq]
  · intro hz
    have hn : ¬ 0 < w._localPort := by omega
    rw [if_neg hn] at hp hl
    exact ⟨hl, by rw [hp, hz]⟩

/-- The theorem `localPort_counter` at a connected handle when the counter stands at
65535. -/
theorem localPort_counter_witness :
    handle10.valid { World.oneHandle with _localPort := 65535 } = true ∧
    ∃ r self1 w1,
      WiFiClient.connectex handle10 { World.oneHandle with _localPort := 65535 } 7 80 false
        Env.reachable = .ok (r, self1, w1) ∧
      ((Env.reachable.ip_route 7 = false ∨ Env.reachable.tcp_new_ok = false) →
        r = 0 ∧ w1._localPort = 65535 ∧ w1.npcb = 1) ∧
      (Env.reachable.ip_route 7 = true → Env.reachable.tcp_new_ok = true →
        (0 < 65535 →
          (w1.pcbs 1).map (fun b => b.local_port) = some 65535 ∧
          w1._localPort = (65535 + 1) % 65536 ∧
          (65535 < 65535 → w1._localPort = 65535 + 1) ∧
          (65535 = 65535 → w1._localPort = 0)) ∧
        (65535 = 0 →
          (w1.pcbs 1).map (fun b => b.local_port) = some 0 ∧ w1._localPort = 0)) :=
  ⟨by decide,
    localPort_counter handle10 { World.oneHandle with _localPort := 65535 } 7 80 false
      Env.reachable (by decide)⟩

/-! ## Queries and I/O -/

theorem toInt32_eq_zero (n : Nat) (h : n < 4294967296) : toInt32 n = 0 ↔ n = 0 := by
  unfold toInt32
  rw [Nat.mod_eq_of_lt h]
  split <;> omega

/-- C7: for every valid handle, `connected()` returns, its value is 0 or 1, it changes
neither contexts nor raw connections, and it is non-zero exactly when the handle holds
a context whose state is ESTABLISHED or whose number of unread bytes is positive. So
once the state has left ESTABLISHED the handle reports connected exactly while unread
bytes remain. -/
theorem connected_iff (self : WiFiClient) (w : World) (hv : self.valid w = true)
    (hs : self.sizeInRange w = true) :
    ∃ r w1, WiFiClient.connected self w = .ok (r, w1) ∧ (r = 0 ∨ r = 1) ∧
      w1.heap = w.heap ∧ w1.pcbs = w.pcbs ∧
      (r ≠ 0 ↔ ∃ p c, self._client = some p ∧ w.heap p = some c ∧
        (ClientContext.state w c = ESTABLISHED ∨ 0 < ClientContext.getSize c)) ∧
      (∀ p c, self._client = some p → w.heap p = some c →
        ClientContext.state w c ≠ ESTABLISHED → (r ≠ 0 ↔ 0 < ClientContext.getSize c)) := by
  unfold WiFiClient.connected
  cases hc : self._client with
  | none => exact ⟨0, w, rfl, Or.inl rfl, rfl, rfl, by simp, by simp⟩
  | some p =>
    have hv1 : (w.heap p).isSome = true := by simpa [WiFiClient.valid, hc] using hv
    obtain ⟨c, hcx⟩ := Option.isSome_iff_exists.mp hv1
    have hsz : ClientContext.getSize c < 4294967296 := by
      simpa [WiFiClient.sizeInRange, hc, hcx] using hs
    have hz := toInt32_eq_zero _ hsz
    simp only [deref, hcx, bind, Except.bind, pure, Except.pure]
    by_cases he : ClientContext.state w c = ESTABLISHED
    · simp only [he, if_true]
      exact ⟨1, w, rfl, Or.inr rfl, rfl, rfl, by simp [hcx, he], by
        intro p1 c1 h1 h2 h3
        cases h1
        rw [hcx] at h2
        cases h2
        exact absurd he h3⟩
    · simp only [he, if_false, WiFiClient.available, hc, deref, hcx, bind, Except.bind, pure,
        Except.pure]
      by_cases h0 : ClientContext.getSize c = 0
      · have hz0 : toInt32 (ClientContext.getSize c) = 0 := hz.mpr h0
        simp only [hz0, if_true]
        refine ⟨0, _, rfl, Or.inl rfl, rfl, rfl, ?_, ?_⟩
        · simp [hcx, he, h0]
        · intro p1 c1 h1 h2 _
          cases h1
          rw [hcx] at h2
          cases h2
          simp [h0]
      · have hz0 : toInt32 (ClientContext.getSize c) ≠ 0 := fun h => h0 (hz.mp h)
        simp only [hz0, if_false, ne_eq, not_false_eq_true, if_true]
        refine ⟨1, _, rfl, Or.inr rfl, rfl, rfl, ?_, ?_⟩
        · simp [hcx, he]
          omega
        · intro p1 c1 h1 h2 _
          cases h1
          rw [hcx] at h2
          cases h2
          simp
          omega

/-- The theorem `connected_iff` at a handle whose peer has closed while two bytes
are unread. -/
theorem connected_iff_witness :
    handle10.valid World.peerClosed = true ∧ handle10.sizeInRange World.peerClosed = true ∧
    ∃ r w1, WiFiClient.connected handle10 World.peerClosed = .ok (r, w1) ∧ (r = 0 ∨ r = 1) ∧
      w1.heap = World.peerClosed.heap ∧ w1.pcbs = World.peerClosed.pcbs ∧
      (r ≠ 0 ↔ ∃ p c, handle10._client = some p ∧ World.peerClosed.heap p = some c ∧
        (ClientContext.state World.peerClosed c = ESTABLISHED ∨ 0 < ClientContext.getSize c)) ∧
      (∀ p c, handle10._client = some p → World.peerClosed.heap p = some c →
        ClientContext.state World.peerClosed c ≠ ESTABLISHED →
          (r ≠ 0 ↔ 0 < ClientContext.getSize c)) :=
  ⟨by decide, by decide, connected_iff handle10 World.peerClosed (by decide) (by decide)⟩

/-- C8, the failing operation: `read(buf, size)` on a handle without context
dereferences the null `_client` instead of returning 0. -/
theorem readBuf_no_context_faults :
    WiFiClient.readBuf idle10 World.empty 4 = .error Fault.nullDeref :=
  rfl

/-- The operations that do guard against a null `_client`: on a handle without context
each returns its neutral value and leaves the shared state as it was. -/
theorem no_context_neutral (self : WiFiClient) (w : World) (hc : self._client = none)
    (size room : Nat) (nodelay : Bool) :
    WiFiClient.writeByte self w room = .ok (0, w) ∧
    WiFiClient.write self w size room = .ok (0, w) ∧
    WiFiClient.available self w = .ok (0, w) ∧
    WiFiClient.read self w = .ok (-1, w) ∧
    WiFiClient.peek self w = .ok (-1, w) ∧
    WiFiClient.connected self w = .ok (0, w) ∧
    WiFiClient.status self w = .ok CLOSED ∧
    WiFiClient.getNoDelay self w = .ok false ∧
    WiFiClient.remoteIP self w = .ok 0 ∧
    WiFiClient.remotePort self w = .ok 0 ∧
    WiFiClient.setNoDelay self w nodelay = .ok w ∧
    WiFiClient.flush self w = .ok w ∧
    WiFiClient.stop self w = .ok (self, w) ∧
    WiFiClient.readBuf self w size = .error Fault.nullDeref := by
  simp [WiFiClient.writeByte, WiFiClient.write, WiFiClient.available, WiFiClient.read,
    WiFiClient.peek, WiFiClient.connected, WiFiClient.status, WiFiClient.getNoDelay,
    WiFiClient.remoteIP, WiFiClient.remotePort, WiFiClient.setNoDelay, WiFiClient.flush,
    WiFiClient.stop, WiFiClient.readBuf, hc, bind, Except.bind, pure, Except.pure, throw,
    throwThe, MonadExceptOf.throw]

/-- Writing zero bytes returns 0 without touching the context, whatever `_client`
is (even a dangling pointer). -/
theorem write_zero (self : WiFiClient) (w : World) (room : Nat) :
    WiFiClient.write self w 0 room = .ok (0, w) := by
  unfold WiFiClient.write
  cases self._client <;> simp [pure, Except.pure]

/-! ## stopAll -/

theorem pointing_pos_iff (reg : List WiFiClient) (c : Nat) :
    0 < pointing reg c ↔ ∃ h ∈ reg, h._client = some c := by
  unfold pointing
  rw [List.countP_pos_iff]
  simp

theorem refsCover_iff (reg : List WiFiClient) (w : World) :
    refsCover reg w = true ↔
      ∀ c, 0 < pointing reg c → ∃ ctx, w.heap c = some ctx ∧ (pointing reg c : Int) ≤ ctx.refcnt := by
  unfold refsCover
  rw [List.all_eq_true]
  constructor
  · intro h c hc
    obtain ⟨x, hx, hxc⟩ := (pointing_pos_iff reg c).mp hc
    have := h x hx
    rw [hxc] at this
    cases hh : w.heap c with
    | none => simp [hh] at this
    | some ctx => exact ⟨ctx, rfl, by simpa [hh] using this⟩
  · intro h x hx
    cases hxc : x._client with
    | none => rfl
    | some c =>
      obtain ⟨ctx, h1, h2⟩ := h c ((pointing_pos_iff reg c).mpr ⟨x, hx, hxc⟩)
      simp [h1, h2]

/-- One turn of the loop of `stopAll` on a handle holding the context at `c`. -/
theorem stopAll_turn (w : World) (c : Nat) (ctx : ClientContext) (h : w.heap c = some ctx) :
    ∃ w2, (ClientContext.abort w c).bind (fun w1 => ClientContext.unref w1 c) = .ok w2 ∧
      w2.heap = Function.update w.heap c
        (if ctx.refcnt - 1 = 0 then none
         else some { pcb := none, refcnt := ctx.refcnt - 1, rx := ctx.rx }) ∧
      (∀ i, w2.pcbs i =
        if ctx.pcb = some i then (w.pcbs i).map tcp_pcb.abortedOne else w.pcbs i) := by
  unfold ClientContext.abort ClientContext.unref deref
  simp only [h, bind, Except.bind, pure, Except.pure]
  cases hp : ctx.pcb with
  | none =>
    simp only [h]
    by_cases hz : ctx.refcnt - 1 = 0
    · simp only [hz, if_true]
      refine ⟨_, rfl, ?_, ?_⟩
      · simp [ClientContext.release, hp]
      · simp [ClientContext.release, hp]
    · simp only [hz, if_false]
      refine ⟨_, rfl, ?_, ?_⟩
      · simp [World.store, hp]
      · simp [World.store]
  | some j =>
    simp only [World.store, World.setFate, World.modPcb, Function.update_same]
    by_cases hz : ctx.refcnt - 1 = 0
    · simp only [hz, if_true]
      refine ⟨_, rfl, ?_, ?_⟩
      · simp [ClientContext.release]
      · intro i
        simp only [ClientContext.release]
        by_cases hij : i = j
        · subst hij; simp; rfl
        · have : ¬ j = i := fun e => hij e.symm
          simp [Function.update_noteq hij, this]
    · simp only [hz, if_false]
      refine ⟨_, rfl, ?_, ?_⟩
      · simp
      · intro i
        by_cases hij : i = j
        · subst hij; simp; rfl
        · have : ¬ j = i := fun e => hij e.symm
          simp [Function.update_noteq hij, this]

theorem pointing_cons (it : WiFiClient) (rest : List WiFiClient) (c : Nat) :
    pointing (it :: rest) c = pointing rest c + (if it._client = some c then 1 else 0) := by
  unfold pointing
  rw [List.countP_cons]
  simp

theorem held_congr (reg reg1 : List WiFiClient) (w w1 : World) (i : Nat)
    (h : ∀ c, 0 < pointing reg c → ∀ ctx, w.heap c = some ctx → ctx.pcb = some i →
      0 < pointing reg1 c ∧ w1.heap c = some ctx) :
    held reg w i → held reg1 w1 i := by
  rintro ⟨c, ctx, h1, h2, h3⟩
  obtain ⟨a, b⟩ := h c h1 ctx h2 h3
  exact ⟨c, ctx, a, b, h3⟩

theorem abortedOne_twice (b : Option tcp_pcb) :
    (b.map tcp_pcb.abortedOne).map tcp_pcb.abortedOne = b.map tcp_pcb.abortedOne := by
  cases b <;> rfl

/-- The loop of `stopAll` over a registry whose contexts cover their handles: it
completes, clears every handle, takes one reference per holding handle from each
context (freeing it at zero), aborts exactly the raw connections of held contexts. -/
theorem stopAllLoop_spec (reg : List WiFiClient) :
    ∀ w, refsCover reg w = true →
      ∃ w1, stopAllLoop reg w = .ok (reg.map (fun h => { h with _client := none }), w1) ∧
        (∀ c, w1.heap c = afterStopAll (pointing reg c) (w.heap c)) ∧
        (∀ i, held reg w i → w1.pcbs i = (w.pcbs i).map tcp_pcb.abortedOne) ∧
        (∀ i, ¬ held reg w i → w1.pcbs i = w.pcbs i) := by
  induction reg with
  | nil =>
    intro w _
    refine ⟨w, rfl, ?_, ?_, fun _ _ => rfl⟩
    · intro c
      cases w.heap c <;> simp [afterStopAll, pointing]
    · rintro i ⟨c, ctx, hc, -⟩
      simp [pointing] at hc
  | cons it rest ih =>
    intro w hcov
    rw [refsCover_iff] at hcov
    cases hit : it._client with
    | none =>
      have hpt : ∀ c, pointing (it :: rest) c = pointing rest c := by
        intro c; rw [pointing_cons]; simp [hit]
      have hcov1 : refsCover rest w = true := by
        rw [refsCover_iff]
        intro c hc
        have := hcov c (by rw [hpt]; exact hc)
        rwa [hpt] at this
      obtain ⟨w1, h1, h2, h3, h4⟩ := ih w hcov1
      refine ⟨w1, ?_, ?_, ?_, ?_⟩
      · have hit1 : ({ it with _client := none } : WiFiClient) = it := by
          cases it; simp_all
        simp [stopAllLoop, hit, h1, bind, Except.bind, pure, Except.pure, hit1]
      · intro c; rw [hpt]; exact h2 c
      · intro i hh
        apply h3
        exact held_congr _ _ w w i (fun c hc ctx hx _ => ⟨by rwa [hpt] at hc, hx⟩) hh
      · intro i hh
        apply h4
        intro hh1
        exact hh (held_congr _ _ w w i (fun c hc ctx hx _ => ⟨by rwa [hpt], hx⟩) hh1)
    | some c =>
      have hptc : pointing (it :: rest) c = pointing rest c + 1 := by
        rw [pointing_cons]; simp [hit]
      have hpto : ∀ d, d ≠ c → pointing (it :: rest) d = pointing rest d := by
        intro d hd
        rw [pointing_cons]
        have : ¬ it._client = some d := by rw [hit]; intro e; exact hd (Option.some.inj e).symm
        simp [this]
      obtain ⟨ctx, hctx, hle⟩ := hcov c (by rw [hptc]; omega)
      rw [hptc] at hle
      obtain ⟨w2, ht, hheap, hpcb⟩ := stopAll_turn w c ctx hctx
      have hcov1 : refsCover rest w2 = true := by
        rw [refsCover_iff]
        intro d hd
        by_cases hdc : d = c
        · subst hdc
          have hz : ¬ ctx.refcnt - 1 = 0 := by push_cast at hle; omega
          rw [hheap]
          simp only [Function.update_same, hz, if_false]
          exact ⟨_, rfl, by push_cast at hle; simp; omega⟩
        · have := hcov d (by rw [hpto d hdc]; exact hd)
          rw [hpto d hdc] at this
          rw [hheap, Function.update_noteq hdc]
          exact this
      obtain ⟨w1, h1, h2, h3, h4⟩ := ih w2 hcov1
      have hheld : ∀ i, held (it :: rest) w i ↔ (ctx.pcb = some i ∨ held rest w2 i) := by
        intro i
        constructor
        · rintro ⟨d, dctx, hd1, hd2, hd3⟩
          by_cases hdc : d = c
          · subst hdc
            rw [hctx] at hd2
            cases hd2
            exact Or.inl hd3
          · refine Or.inr ⟨d, dctx, ?_, ?_, hd3⟩
            · rwa [hpto d hdc] at hd1
            · rw [hheap, Function.update_noteq hdc]; exact hd2
        · rintro (hp | ⟨d, dctx, hd1, hd2, hd3⟩)
          · exact ⟨c, ctx, by rw [hptc]; omega, hctx, hp⟩
          · have hdc : d ≠ c := by
              intro e
              subst e
              rw [hheap] at hd2
              simp only [Function.update_same] at hd2
              split at hd2
              · cases hd2
              · cases hd2
                cases hd3
            refine ⟨d, dctx, ?_, ?_, hd3⟩
            · rw [hpto d hdc]; exact hd1
            · rw [hheap, Function.update_noteq hdc] at hd2; exact hd2
      refine ⟨w1, ?_, ?_, ?_, ?_⟩
      · have ht1 : (ClientContext.abort w c).bind (fun w1 => ClientContext.unref w1 c) =
            .ok w2 := ht
        simp only [stopAllLoop, hit, List.map_cons]
        simp only [bind, Except.bind, pure, Except.pure] at ht1 ⊢
        cases ha : ClientContext.abort w c with
        | error e => simp [ha] at ht1
        | ok wa =>
          simp only [ha] at ht1 ⊢
          simp only [ht1, h1]
      · intro d
        rw [h2 d, hheap]
        by_cases hdc : d = c
        · subst hdc
          rw [hptc, hctx]
          simp only [Function.update_same]
          by_cases hz : ctx.refcnt - 1 = 0
          · have hk : pointing rest d = 0 := by omega
            have hr : ctx.refcnt = 1 := by omega
            simp [afterStopAll, hz, hk, hr]
          · simp only [hz, if_false, afterStopAll]
            by_cases hk : pointing rest d = 0
            · simp [hk]
              omega
            · have hk1 : ¬ pointing rest d + 1 = 0 := by omega
              simp only [hk, hk1, if_false]
              by_cases he : ctx.refcnt - 1 = (pointing rest d : Int)
              · have he1 : ctx.refcnt = ((pointing rest d + 1 : Nat) : Int) := by
                  push_cast; omega
                simp [he, he1]
              · have he1 : ¬ ctx.refcnt = ((pointing rest d + 1 : Nat) : Int) := by
                  push_cast; omega
                simp only [he, he1, if_false]
                congr 2
                push_cast
                omega
        · rw [hpto d hdc, Function.update_noteq hdc]
      · intro i hh
        rcases (hheld i).mp hh with hp | hr
        · by_cases hr : held rest w2 i
          · rw [h3 i hr, hpcb i, if_pos hp, abortedOne_twice]
          · rw [h4 i hr, hpcb i, if_pos hp]
        · rw [h3 i hr, hpcb i]
          split
          · rw [abortedOne_twice]
          · rfl
      · intro i hh
        have hn1 : ¬ ctx.pcb = some i := fun e => hh ((hheld i).mpr (Or.inl e))
        have hn2 : ¬ held rest w2 i := fun e => hh ((hheld i).mpr (Or.inr e))
        rw [h4 i hn2, hpcb i, if_neg hn1]

theorem stopAll_of_loop (s : Sys) (reg : List WiFiClient) (w : World)
    (h : stopAllLoop s._s_first s.world = .ok (reg, w)) :
    stopAll s = .ok { _s_first := reg, world := w } := by
  unfold stopAll
  simp [h, bind, Except.bind, pure, Except.pure]

/-- C5: on a registry whose contexts are allocated and count at least one reference
per registered handle holding them, `stopAll()` completes and visits every handle:
the registry keeps the same handles in the same order, every handle's `_client` is
null afterwards, handles that had none are unchanged. A context held by `k > 0`
registered handles has its raw connection aborted and its count lowered by exactly
`k` (one per holding handle), being freed when that reaches zero; contexts no
registered handle held are untouched. -/
theorem stopAll_spec (s : Sys) (hc : refsCover s._s_first s.world = true) :
    ∃ s1, stopAll s = .ok s1 ∧
      s1._s_first = s._s_first.map (fun h => { h with _client := none }) ∧
      s1._s_first.map (fun h => h.addr) = s._s_first.map (fun h => h.addr) ∧
      (∀ h ∈ s1._s_first, h._client = none) ∧
      (∀ h ∈ s._s_first, h._client = none → h ∈ s1._s_first) ∧
      (∀ c ctx, s.world.heap c = some ctx → 0 < pointing s._s_first c →
        (ctx.refcnt = pointing s._s_first c → s1.world.heap c = none) ∧
        (ctx.refcnt ≠ pointing s._s_first c →
          s1.world.heap c =
            some { pcb := none, refcnt := ctx.refcnt - pointing s._s_first c, rx := ctx.rx }) ∧
        (∀ i, ctx.pcb = some i →
          s1.world.pcbs i = (s.world.pcbs i).map tcp_pcb.abortedOne)) ∧
      (∀ c, pointing s._s_first c = 0 → s1.world.heap c = s.world.heap c) := by
  obtain ⟨w1, h1, h2, h3, -⟩ := stopAllLoop_spec s._s_first s.world hc
  refine ⟨_, stopAll_of_loop s _ w1 h1, rfl, ?_, ?_, ?_, ?_, ?_⟩
  · simp [List.map_map, Function.comp_def]
  · intro h hh
    obtain ⟨x, -, rfl⟩ := List.mem_map.mp hh
    rfl
  · intro h hh hn
    refine List.mem_map.mpr ⟨h, hh, ?_⟩
    cases h
    simp_all
  · intro c ctx hctx hpos
    have hk : ¬ pointing s._s_first c = 0 := by omega
    refine ⟨fun he => ?_, fun hne => ?_, fun i hi => ?_⟩
    · show w1.heap c = none
      rw [h2 c, hctx]
      simp [afterStopAll, hk, he]
    · show w1.heap c = _
      rw [h2 c, hctx]
      simp [afterStopAll, hk, hne]
    · exact h3 i ⟨c, ctx, hpos, hctx, hi⟩
  · intro c hz
    show w1.heap c = _
    rw [h2 c, hz]
    cases s.world.heap c <;> simp [afterStopAll]

/-- The theorem `stopAll_spec` at a registry where two handles share one context. -/
theorem stopAll_spec_witness :
    refsCover Sys.twoSharing._s_first Sys.twoSharing.world = true ∧
    ∃ s1, stopAll Sys.twoSharing = .ok s1 ∧
      s1._s_first = Sys.twoSharing._s_first.map (fun h => { h with _client := none }) ∧
      s1._s_first.map (fun h => h.addr) = Sys.twoSharing._s_first.map (fun h => h.addr) ∧
      (∀ h ∈ s1._s_first, h._client = none) ∧
      (∀ h ∈ Sys.twoSharing._s_first, h._client = none → h ∈ s1._s_first) ∧
      (∀ c ctx, Sys.twoSharing.world.heap c = some ctx → 0 < pointing Sys.twoSharing._s_first c →
        (ctx.refcnt = pointing Sys.twoSharing._s_first c → s1.world.heap c = none) ∧
        (ctx.refcnt ≠ pointing Sys.twoSharing._s_first c →
          s1.world.heap c =
            some { pcb := none, refcnt := ctx.refcnt - pointing Sys.twoSharing._s_first c,
                   rx := ctx.rx }) ∧
        (∀ i, ctx.pcb = some i →
          s1.world.pcbs i = (Sys.twoSharing.world.pcbs i).map tcp_pcb.abortedOne)) ∧
      (∀ c, pointing Sys.twoSharing._s_first c = 0 →
        s1.world.heap c = Sys.twoSharing.world.heap c) :=
  ⟨by decide, stopAll_spec Sys.twoSharing (by decide)⟩

/-- C6, as stated, fails for a Connecting handle: after a non-blocking connect has
created raw connection 0 with the handle as callback argument, `stopAll()` leaves that
raw connection live, with `_s_connected_nb` still registered on it. -/
theorem stopAll_connecting_counterexample :
    ∃ s1 s2,
      connectexAt { _s_first := [idle10], world := World.empty } 10 7 80 false Env.reachable =
        .ok (-1, s1) ∧
      stopAll s1 = .ok s2 ∧
      s2._s_first = [idle10] ∧
      (s2.world.pcbs 0).map (fun b => (b.fate, b.callback_arg, b.connected)) =
        some (PcbFate.live, some 10, some ConnectedFn._s_connected_nb) :=
  ⟨_, _, rfl, rfl, rfl, rfl⟩

/-- C6 (amended): on a registry whose contexts are allocated and count at least one
reference per registered handle holding them, `stopAll()` completes and leaves every
registered handle with an absent context, whatever its prior state; every raw
connection wrapped by a context that a registered handle held is aborted; every other
raw connection, in particular the pending one of a Connecting handle, is left exactly
as it was. -/
theorem stopAll_connections (s : Sys) (hc : refsCover s._s_first s.world = true) :
    ∃ s1, stopAll s = .ok s1 ∧
      (∀ h ∈ s1._s_first, h._client = none) ∧
      (∀ i, held s._s_first s.world i →
        s1.world.pcbs i = (s.world.pcbs i).map tcp_pcb.abortedOne) ∧
      (∀ i, ¬ held s._s_first s.world i → s1.world.pcbs i = s.world.pcbs i) := by
  obtain ⟨w1, h1, -, h3, h4⟩ := stopAllLoop_spec s._s_first s.world hc
  refine ⟨_, stopAll_of_loop s _ w1 h1, ?_, h3, h4⟩
  intro h hh
  obtain ⟨x, -, rfl⟩ := List.mem_map.mp hh
  rfl

/-- The theorem `stopAll_connections` at a registry with a connected and a connecting
handle. -/
theorem stopAll_connections_witness :
    refsCover Sys.connecting._s_first Sys.connecting.world = true ∧
    ∃ s1, stopAll Sys.connecting = .ok s1 ∧
      (∀ h ∈ s1._s_first, h._client = none) ∧
      (∀ i, held Sys.connecting._s_first Sys.connecting.world i →
        s1.world.pcbs i = (Sys.connecting.world.pcbs i).map tcp_pcb.abortedOne) ∧
      (∀ i, ¬ held Sys.connecting._s_first Sys.connecting.world i →
        s1.world.pcbs i = Sys.connecting.world.pcbs i) :=
  ⟨by decide, stopAll_connections Sys.connecting (by decide)⟩

/-! ## Reference counting across construct, copy, assign, stop, destroy -/

/-- C1, the failing sequence: one handle is constructed from a context (count 1) and
then assigned to itself. The first statement of `operator=` drops the count to 0,
which releases the connection and frees the context while the live handle still
points to it; the following `_client->ref()` then runs on the freed context. -/
theorem self_assign_releases_held_context :
    ∃ s1 w2,
      run Sys.initial [Op.construct 10 0] = .ok s1 ∧
      s1._s_first = [handle10] ∧
      s1.world.heap 0 = some { pcb := some 0, refcnt := 1, rx := [] } ∧
      ClientContext.unref s1.world 0 = .ok w2 ∧
      w2.heap 0 = none ∧ w2.released = [0] ∧
      (w2.pcbs 0).map (fun b => b.fate) = some PcbFate.closed ∧
      assign s1 10 10 = .error Fault.useAfterFree ∧
      run Sys.initial [Op.construct 10 0, Op.assign 10 10] = .error Fault.useAfterFree :=
  ⟨_, _, rfl, rfl, rfl, rfl, rfl, rfl, rfl, rfl, rfl⟩

theorem find_addr_some (reg : List WiFiClient) (a : Nat) (h : WiFiClient)
    (hf : reg.find? (fun x => x.addr == a) = some h) : h ∈ reg ∧ h.addr = a := by
  refine ⟨List.mem_of_find?_eq_some hf, ?_⟩
  have := List.find?_some hf
  simpa using this

theorem find_addr_none (reg : List WiFiClient) (a : Nat)
    (hf : reg.find? (fun x => x.addr == a) = none) : a ∉ reg.map (fun h => h.addr) := by
  rw [List.find?_eq_none] at hf
  intro hm
  obtain ⟨x, hx, rfl⟩ := List.mem_map.mp hm
  exact hf x hx (by simp)

theorem live_get (s : Sys) (a : Nat) (hl : s.live a = true) :
    ∃ h, s.get a = .ok h ∧ h ∈ s._s_first ∧ h.addr = a := by
  unfold Sys.live at hl
  obtain ⟨h, hh⟩ := Option.isSome_iff_exists.mp hl
  obtain ⟨h1, h2⟩ := find_addr_some _ _ _ hh
  exact ⟨h, by simp [Sys.get, hh], h1, h2⟩

theorem not_live_fresh (s : Sys) (a : Nat) (hl : s.live a = false) :
    s.fresh a = .ok () ∧ a ∉ s._s_first.map (fun h => h.addr) := by
  unfold Sys.live at hl
  have hn : s._s_first.find? (fun h => h.addr == a) = none := by
    cases hf : s._s_first.find? (fun h => h.addr == a) with
    | none => rfl
    | some x => simp [hf] at hl
  exact ⟨by simp [Sys.fresh, hn], find_addr_none _ _ hn⟩

theorem putHandle_absent (reg : List WiFiClient) (h1 : WiFiClient)
    (hn : h1.addr ∉ reg.map (fun h => h.addr)) : putHandle reg h1 = reg := by
  unfold putHandle
  induction reg with
  | nil => rfl
  | cons x xs ih =>
    simp only [List.map_cons, List.mem_cons, not_or] at hn
    have hx : ¬ x.addr = h1.addr := fun e => hn.1 e.symm
    simp only [List.map_cons, hx, if_false]
    rw [ih hn.2]

theorem putHandle_addrs (reg : List WiFiClient) (h1 : WiFiClient) :
    (putHandle reg h1).map (fun h => h.addr) = reg.map (fun h => h.addr) := by
  unfold putHandle
  induction reg with
  | nil => rfl
  | cons x xs ih =>
    simp only [List.map_cons]
    rw [ih]
    by_cases hx : x.addr = h1.addr
    · simp [hx]
    · simp [hx]

/-- Rewriting one registered handle moves one unit of `pointing` from its old
context to its new one. -/
theorem pointing_putHandle (reg : List WiFiClient) (h h1 : WiFiClient)
    (hnd : (reg.map (fun x => x.addr)).Nodup) (hm : h ∈ reg) (ha : h1.addr = h.addr) (c : Nat) :
    pointing (putHandle reg h1) c + (if h._client = some c then 1 else 0) =
      pointing reg c + (if h1._client = some c then 1 else 0) := by
  induction reg with
  | nil => cases hm
  | cons x xs ih =>
    simp only [List.map_cons, List.nodup_cons] at hnd
    obtain ⟨hx, hnd1⟩ := hnd
    rcases List.mem_cons.mp hm with rfl | hm1
    · have hput : putHandle (h :: xs) h1 = h1 :: xs := by
        have := putHandle_absent xs h1 (by rw [ha]; exact hx)
        unfold putHandle at this ⊢
        rw [List.map_cons, this]
        simp [ha]
      rw [hput, pointing_cons, pointing_cons]
      omega
    · have hne : ¬ x.addr = h1.addr := by
        intro e
        apply hx
        rw [e, ha]
        exact List.mem_map.mpr ⟨h, hm1, rfl⟩
      have hput : putHandle (x :: xs) h1 = x :: putHandle xs h1 := by
        unfold putHandle
        simp [hne]
      rw [hput, pointing_cons, pointing_cons]
      have := ih hnd1 hm1
      omega

theorem remove_absent (reg : List WiFiClient) (a : Nat)
    (hn : a ∉ reg.map (fun h => h.addr)) : _remove reg a = reg := by
  unfold _remove
  rw [List.filter_eq_self]
  intro x hx
  have : x.addr ≠ a := fun e => hn (List.mem_map.mpr ⟨x, hx, e⟩)
  simpa using this

/-- Removing one registered handle takes one unit of `pointing` from its context. -/
theorem pointing_remove (reg : List WiFiClient) (h : WiFiClient)
    (hnd : (reg.map (fun x => x.addr)).Nodup) (hm : h ∈ reg) (c : Nat) :
    pointing (_remove reg h.addr) c + (if h._client = some c then 1 else 0) = pointing reg c := by
  induction reg with
  | nil => cases hm
  | cons x xs ih =>
    simp only [List.map_cons, List.nodup_cons] at hnd
    obtain ⟨hx, hnd1⟩ := hnd
    rcases List.mem_cons.mp hm with rfl | hm1
    · have hrem : _remove (h :: xs) h.addr = xs := by
        have := remove_absent xs h.addr hx
        unfold _remove at this ⊢
        simp [this]
      rw [hrem, pointing_cons]
    · have hne : ¬ x.addr = h.addr := by
        intro e
        apply hx
        rw [e]
        exact List.mem_map.mpr ⟨h, hm1, rfl⟩
      have hrem : _remove (x :: xs) h.addr = x :: _remove xs h.addr := by
        unfold _remove
        simp [hne]
      rw [hrem, pointing_cons, pointing_cons]
      have := ih hnd1 hm1
      omega

theorem remove_nodup (reg : List WiFiClient) (a : Nat)
    (hnd : (reg.map (fun x => x.addr)).Nodup) :
    ((_remove reg a).map (fun x => x.addr)).Nodup := by
  unfold _remove
  exact List.Nodup.sublist (List.Sublist.map _ (List.filter_sublist reg)) hnd

theorem unref_spec (w : World) (p : Nat) (ctx : ClientContext) (h : w.heap p = some ctx) :
    ∃ w1, ClientContext.unref w p = .ok w1 ∧
      w1.heap = Function.update w.heap p
        (if ctx.refcnt - 1 = 0 then none else some { ctx with refcnt := ctx.refcnt - 1 }) ∧
      w1.released = (if ctx.refcnt - 1 = 0 then w.released ++ [p] else w.released) := by
  unfold ClientContext.unref deref
  simp only [h, bind, Except.bind, pure, Except.pure]
  by_cases hz : ctx.refcnt - 1 = 0
  · simp only [hz, if_true]
    refine ⟨_, rfl, ?_, ?_⟩
    · unfold ClientContext.release
      cases ctx.pcb <;> rfl
    · unfold ClientContext.release
      cases ctx.pcb <;> rfl
  · simp only [hz, if_false]
    exact ⟨_, rfl, rfl, rfl⟩

theorem ref_spec (w : World) (p : Nat) (ctx : ClientContext) (h : w.heap p = some ctx) :
    ∃ w1, ClientContext.ref w p = .ok w1 ∧
      w1.heap = Function.update w.heap p (some { ctx with refcnt := ctx.refcnt + 1 }) ∧
      w1.released = w.released := by
  unfold ClientContext.ref deref
  simp only [h, bind, Except.bind, pure, Except.pure]
  exact ⟨_, rfl, rfl, rfl⟩

/-- Dropping one reference to the context at `p`, by `unref`, keeps the counts in
agreement; the context is released in this step exactly if its count of pointing
handles goes from 1 to 0. -/
theorem countedAt_drop (reg reg1 : List WiFiClient) (heap : Nat → Option ClientContext)
    (rel : List Nat) (p : Nat) (ctx : ClientContext) (hinv : CountedAt reg heap rel)
    (hnd : (reg1.map (fun h => h.addr)).Nodup)
    (hpt : ∀ c, pointing reg1 c + (if c = p then 1 else 0) = pointing reg c)
    (hctx : heap p = some ctx) :
    CountedAt reg1
        (Function.update heap p
          (if ctx.refcnt - 1 = 0 then none else some { ctx with refcnt := ctx.refcnt - 1 }))
        (if ctx.refcnt - 1 = 0 then rel ++ [p] else rel) ∧
      ∀ c, (if ctx.refcnt - 1 = 0 then rel ++ [p] else rel).count c =
        rel.count c + (if pointing reg c = 1 ∧ pointing reg1 c = 0 then 1 else 0) := by
  obtain ⟨-, hsome, hnone⟩ := hinv
  obtain ⟨hr, hrel⟩ := hsome p ctx hctx
  have hp := hpt p
  simp only [if_true] at hp
  have hother : ∀ c, c ≠ p → pointing reg1 c = pointing reg c := by
    intro c hc
    have := hpt c
    simp only [hc, if_false] at this
    omega
  by_cases hz : ctx.refcnt - 1 = 0
  · simp only [hz, if_true]
    have h1 : pointing reg p = 1 := by omega
    have h0 : pointing reg1 p = 0 := by omega
    refine ⟨⟨hnd, ?_, ?_⟩, ?_⟩
    · intro c x hx
      by_cases hc : c = p
      · subst hc; simp at hx
      · rw [Function.update_noteq hc] at hx
        obtain ⟨a, b⟩ := hsome c x hx
        refine ⟨by rw [hother c hc]; exact a, ?_⟩
        simp [b, hc]
    · intro c hx
      by_cases hc : c = p
      · subst hc
        refine ⟨h0, ?_⟩
        rw [List.count_append, List.count_eq_zero_of_not_mem hrel]
        simp
      · rw [Function.update_noteq hc] at hx
        obtain ⟨a, b⟩ := hnone c hx
        refine ⟨by rw [hother c hc]; exact a, ?_⟩
        rw [List.count_append]
        have : List.count c [p] = 0 := by
          rw [List.count_eq_zero]
          simpa using hc
        omega
    · intro c
      rw [List.count_append]
      by_cases hc : c = p
      · subst hc
        simp [h1, h0]
      · have : List.count c [p] = 0 := by
          rw [List.count_eq_zero]
          simpa using hc
        have hne : ¬ (pointing reg c = 1 ∧ pointing reg1 c = 0) := by
          rw [hother c hc]; omega
        simp [this, hne]
  · simp only [hz, if_false]
    refine ⟨⟨hnd, ?_, ?_⟩, ?_⟩
    · intro c x hx
      by_cases hc : c = p
      · subst hc
        simp only [Function.update_same, Option.some.injEq] at hx
        subst hx
        exact ⟨by simp only; omega, hrel⟩
      · rw [Function.update_noteq hc] at hx
        obtain ⟨a, b⟩ := hsome c x hx
        exact ⟨by rw [hother c hc]; exact a, b⟩
    · intro c hx
      by_cases hc : c = p
      · subst hc; simp at hx
      · rw [Function.update_noteq hc] at hx
        obtain ⟨a, b⟩ := hnone c hx
        exact ⟨by rw [hother c hc]; exact a, b⟩
    · intro c
      have hne : ¬ (pointing reg c = 1 ∧ pointing reg1 c = 0) := by
        by_cases hc : c = p
        · subst hc; omega
        · rw [hother c hc]; omega
      simp [hne]

/-- Adding one reference to the context at `p`, by `ref`, keeps the counts in
agreement. -/
theorem countedAt_add (reg reg1 : List WiFiClient) (heap : Nat → Option ClientContext)
    (rel : List Nat) (p : Nat) (ctx : ClientContext) (hinv : CountedAt reg heap rel)
    (hnd : (reg1.map (fun h => h.addr)).Nodup)
    (hpt : ∀ c, pointing reg1 c = pointing reg c + (if c = p then 1 else 0))
    (hctx : heap p = some ctx) :
    CountedAt reg1 (Function.update heap p (some { ctx with refcnt := ctx.refcnt + 1 })) rel := by
  obtain ⟨-, hsome, hnone⟩ := hinv
  obtain ⟨hr, hrel⟩ := hsome p ctx hctx
  have hp := hpt p
  simp only [if_true] at hp
  have hother : ∀ c, c ≠ p → pointing reg1 c = pointing reg c := by
    intro c hc
    have := hpt c
    simp only [hc, if_false] at this
    omega
  refine ⟨hnd, ?_, ?_⟩
  · intro c x hx
    by_cases hc : c = p
    · subst hc
      simp only [Function.update_same, Option.some.injEq] at hx
      subst hx
      exact ⟨by simp only; omega, hrel⟩
    · rw [Function.update_noteq hc] at hx
      obtain ⟨a, b⟩ := hsome c x hx
      exact ⟨by rw [hother c hc]; exact a, b⟩
  · intro c hx
    by_cases hc : c = p
    · subst hc; simp at hx
    · rw [Function.update_noteq hc] at hx
      obtain ⟨a, b⟩ := hnone c hx
      exact ⟨by rw [hother c hc]; exact a, b⟩

/-- A registry change that moves no reference keeps the counts in agreement. -/
theorem countedAt_same (reg reg1 : List WiFiClient) (heap : Nat → Option ClientContext)
    (rel : List Nat) (hinv : CountedAt reg heap rel)
    (hnd : (reg1.map (fun h => h.addr)).Nodup)
    (hpt : ∀ c, pointing reg1 c = pointing reg c) :
    CountedAt reg1 heap rel := by
  obtain ⟨-, hsome, hnone⟩ := hinv
  refine ⟨hnd, ?_, ?_⟩
  · intro c x hx
    obtain ⟨a, b⟩ := hsome c x hx
    exact ⟨by rw [hpt c]; exact a, b⟩
  · intro c hx
    obtain ⟨a, b⟩ := hnone c hx
    exact ⟨by rw [hpt c]; exact a, b⟩

/-- Under the invariant a context some registered handle points to is allocated. -/
theorem counted_held_alloc (reg : List WiFiClient) (heap : Nat → Option ClientContext)
    (rel : List Nat) (hinv : CountedAt reg heap rel) (h : WiFiClient) (hm : h ∈ reg) (p : Nat)
    (hp : h._client = some p) : ∃ ctx, heap p = some ctx := by
  cases hh : heap p with
  | some ctx => exact ⟨ctx, rfl⟩
  | none =>
    have h0 := (hinv.2.2 p hh).1
    have : 0 < pointing reg p := (pointing_pos_iff reg p).mpr ⟨h, hm, hp⟩
    omega

theorem no_transition (a b n : Nat) (h : a ≤ b) :
    n = n + (if a = 1 ∧ b = 0 then 1 else 0) := by
  have hne : ¬ (a = 1 ∧ b = 0) := by omega
  simp [hne]

theorem mem_putHandle_of_ne (reg : List WiFiClient) (x h1 : WiFiClient) (hx : x ∈ reg)
    (hne : x.addr ≠ h1.addr) : x ∈ putHandle reg h1 := by
  unfold putHandle
  exact List.mem_map.mpr ⟨x, hx, by simp [hne]⟩

theorem step_construct (s : Sys) (addr client : Nat) (hinv : Counted s)
    (happ : (Op.construct addr client).applicable s = true) :
    ∃ s1, step s (Op.construct addr client) = .ok s1 ∧ Counted s1 ∧
      ∀ c, s1.world.released.count c = s.world.released.count c +
        (if pointing s._s_first c = 1 ∧ pointing s1._s_first c = 0 then 1 else 0) := by
  simp only [Op.applicable, Bool.and_eq_true, Bool.not_eq_true'] at happ
  obtain ⟨hl, ha⟩ := happ
  obtain ⟨hf, hfresh⟩ := not_live_fresh s addr hl
  obtain ⟨ctx, hctx⟩ := Option.isSome_iff_exists.mp ha
  obtain ⟨w1, hw1, hheap, hrel⟩ := ref_spec s.world client ctx hctx
  have hpt : ∀ c, pointing ({ addr := addr, _client := some client } :: s._s_first) c =
      pointing s._s_first c + (if c = client then 1 else 0) := by
    intro c
    rw [pointing_cons]
    by_cases hc : c = client
    · subst hc; simp
    · have : ¬ client = c := fun e => hc e.symm
      simp [hc, this]
  refine ⟨{ _s_first := { addr := addr, _client := some client } :: s._s_first, world := w1 },
    ?_, ?_, ?_⟩
  · simp [step, ctorFromContext, hf, hw1, _add, bind, Except.bind, pure, Except.pure]
  · unfold Counted
    simp only
    rw [hheap, hrel]
    exact countedAt_add _ _ _ _ client ctx hinv
      (by simp only [List.map_cons, List.nodup_cons]; exact ⟨hfresh, hinv.1⟩) hpt hctx
  · intro c
    simp only
    rw [hrel]
    exact no_transition _ _ _ (by rw [hpt c]; omega)

theorem step_copy (s : Sys) (addr other : Nat) (hinv : Counted s)
    (happ : (Op.copy addr other).applicable s = true) :
    ∃ s1, step s (Op.copy addr other) = .ok s1 ∧ Counted s1 ∧
      ∀ c, s1.world.released.count c = s.world.released.count c +
        (if pointing s._s_first c = 1 ∧ pointing s1._s_first c = 0 then 1 else 0) := by
  simp only [Op.applicable, Bool.and_eq_true, Bool.not_eq_true'] at happ
  obtain ⟨hl, ha⟩ := happ
  obtain ⟨hf, hfresh⟩ := not_live_fresh s addr hl
  obtain ⟨o, hget, hom, -⟩ := live_get s other ha
  have hndn : ∀ x : Option Nat,
      (({ addr := addr, _client := x } :: s._s_first).map (fun h => h.addr)).Nodup := by
    intro x
    simp only [List.map_cons, List.nodup_cons]
    exact ⟨hfresh, hinv.1⟩
  cases hoc : o._client with
  | none =>
    have hpt : ∀ c, pointing ({ addr := addr, _client := none } :: s._s_first) c =
        pointing s._s_first c := by
      intro c; rw [pointing_cons]; simp
    refine ⟨{ s with _s_first := { addr := addr, _client := none } :: s._s_first }, ?_, ?_, ?_⟩
    · simp [step, copyCtor, hf, hget, hoc, _add, bind, Except.bind, pure, Except.pure]
    · exact countedAt_same _ _ _ _ hinv (hndn none) hpt
    · intro c
      exact no_transition _ _ _ (by simp only; rw [hpt c])
  | some p =>
    obtain ⟨ctx, hctx⟩ := counted_held_alloc _ _ _ hinv o hom p hoc
    obtain ⟨w1, hw1, hheap, hrel⟩ := ref_spec s.world p ctx hctx
    have hpt : ∀ c, pointing ({ addr := addr, _client := some p } :: s._s_first) c =
        pointing s._s_first c + (if c = p then 1 else 0) := by
      intro c
      rw [pointing_cons]
      by_cases hc : c = p
      · subst hc; simp
      · have : ¬ p = c := fun e => hc e.symm
        simp [hc, this]
    refine ⟨{ _s_first := { addr := addr, _client := some p } :: s._s_first, world := w1 },
      ?_, ?_, ?_⟩
    · simp [step, copyCtor, hf, hget, hoc, hw1, _add, bind, Except.bind, pure, Except.pure]
    · unfold Counted
      simp only
      rw [hheap, hrel]
      exact countedAt_add _ _ _ _ p ctx hinv (hndn (some p)) hpt hctx
    · intro c
      simp only
      rw [hrel]
      exact no_transition _ _ _ (by rw [hpt c]; omega)

theorem step_stop (s : Sys) (addr : Nat) (hinv : Counted s)
    (happ : (Op.stop addr).applicable s = true) :
    ∃ s1, step s (Op.stop addr) = .ok s1 ∧ Counted s1 ∧
      ∀ c, s1.world.released.count c = s.world.released.count c +
        (if pointing s._s_first c = 1 ∧ pointing s1._s_first c = 0 then 1 else 0) := by
  simp only [Op.applicable] at happ
  obtain ⟨self, hget, hm, haddr⟩ := live_get s addr happ
  cases hsc : self._client with
  | none =>
    have hpt : ∀ c, pointing (putHandle s._s_first self) c = pointing s._s_first c := by
      intro c
      have := pointing_putHandle s._s_first self self hinv.1 hm rfl c
      omega
    refine ⟨{ _s_first := putHandle s._s_first self, world := s.world }, ?_, ?_, ?_⟩
    · simp [step, stopAt, hget, WiFiClient.stop, hsc, bind, Except.bind, pure, Except.pure]
    · exact countedAt_same _ _ _ _ hinv (by rw [putHandle_addrs]; exact hinv.1) hpt
    · intro c
      exact no_transition _ _ _ (by simp only; rw [hpt c])
  | some p =>
    obtain ⟨ctx, hctx⟩ := counted_held_alloc _ _ _ hinv self hm p hsc
    obtain ⟨w1, hw1, hheap, hrel⟩ := unref_spec s.world p ctx hctx
    have hpt : ∀ c, pointing (putHandle s._s_first { self with _client := none }) c +
        (if c = p then 1 else 0) = pointing s._s_first c := by
      intro c
      have := pointing_putHandle s._s_first self { self with _client := none } hinv.1 hm rfl c
      simp only [hsc] at this
      by_cases hc : c = p
      · subst hc; simpa using this
      · have hne : ¬ p = c := fun e => hc e.symm
        simpa [hc, hne] using this
    obtain ⟨hA, hB⟩ := countedAt_drop _ _ _ _ p ctx hinv
      (by rw [putHandle_addrs]; exact hinv.1) hpt hctx
    refine ⟨{ _s_first := putHandle s._s_first { self with _client := none }, world := w1 },
      ?_, ?_, ?_⟩
    · simp [step, stopAt, hget, WiFiClient.stop, hsc, hw1, bind, Except.bind, pure, Except.pure]
    · unfold Counted
      simp only
      rw [hheap, hrel]
      exact hA
    · intro c
      simp only
      rw [hrel]
      exact hB c

theorem step_destroy (s : Sys) (addr : Nat) (hinv : Counted s)
    (happ : (Op.destroy addr).applicable s = true) :
    ∃ s1, step s (Op.destroy addr) = .ok s1 ∧ Counted s1 ∧
      ∀ c, s1.world.released.count c = s.world.released.count c +
        (if pointing s._s_first c = 1 ∧ pointing s1._s_first c = 0 then 1 else 0) := by
  simp only [Op.applicable] at happ
  obtain ⟨self, hget, hm, haddr⟩ := live_get s addr happ
  subst haddr
  cases hsc : self._client with
  | none =>
    have hpt : ∀ c, pointing (_remove s._s_first self.addr) c = pointing s._s_first c := by
      intro c
      have := pointing_remove s._s_first self hinv.1 hm c
      simpa [hsc] using this
    refine ⟨{ _s_first := _remove s._s_first self.addr, world := s.world }, ?_, ?_, ?_⟩
    · simp [step, dtor, hget, hsc, bind, Except.bind, pure, Except.pure]
    · exact countedAt_same _ _ _ _ hinv (remove_nodup _ _ hinv.1) hpt
    · intro c
      exact no_transition _ _ _ (by simp only; rw [hpt c])
  | some p =>
    obtain ⟨ctx, hctx⟩ := counted_held_alloc _ _ _ hinv self hm p hsc
    obtain ⟨w1, hw1, hheap, hrel⟩ := unref_spec s.world p ctx hctx
    have hpt : ∀ c, pointing (_remove s._s_first self.addr) c +
        (if c = p then 1 else 0) = pointing s._s_first c := by
      intro c
      have := pointing_remove s._s_first self hinv.1 hm c
      simp only [hsc] at this
      by_cases hc : c = p
      · subst hc; simpa using this
      · have hne : ¬ p = c := fun e => hc e.symm
        simpa [hc, hne] using this
    obtain ⟨hA, hB⟩ := countedAt_drop _ _ _ _ p ctx hinv (remove_nodup _ _ hinv.1) hpt hctx
    refine ⟨{ _s_first := _remove s._s_first self.addr, world := w1 }, ?_, ?_, ?_⟩
    · simp [step, dtor, hget, hsc, hw1, bind, Except.bind, pure, Except.pure]
    · unfold Counted
      simp only
      rw [hheap, hrel]
      exact hA
    · intro c
      simp only
      rw [hrel]
      exact hB c

theorem step_assign (s : Sys) (addr other : Nat) (hinv : Counted s)
    (happ : (Op.assign addr other).applicable s = true) :
    ∃ s1, step s (Op.assign addr other) = .ok s1 ∧ Counted s1 ∧
      ∀ c, s1.world.released.count c = s.world.released.count c +
        (if pointing s._s_first c = 1 ∧ pointing s1._s_first c = 0 then 1 else 0) := by
  simp only [Op.applicable, Bool.and_eq_true, Bool.not_eq_true'] at happ
  obtain ⟨⟨hl1, hl2⟩, hsole⟩ := happ
  obtain ⟨self, hfind⟩ := Option.isSome_iff_exists.mp hl1
  obtain ⟨o, hfindo⟩ := Option.isSome_iff_exists.mp hl2
  obtain ⟨hm, haddr⟩ := find_addr_some _ _ _ hfind
  obtain ⟨hom, hoaddr⟩ := find_addr_some _ _ _ hfindo
  have hget : s.get addr = .ok self := by simp [Sys.get, hfind]
  have hgeto : s.get other = .ok o := by simp [Sys.get, hfindo]
  have hndm : ∀ x : Option Nat,
      ((putHandle s._s_first { self with _client := x }).map (fun h => h.addr)).Nodup := by
    intro x; rw [putHandle_addrs]; exact hinv.1
  have hmove : ∀ (x : Option Nat) (c : Nat),
      pointing (putHandle s._s_first { self with _client := x }) c +
        (if self._client = some c then 1 else 0) =
      pointing s._s_first c + (if x = some c then 1 else 0) := fun x c =>
    pointing_putHandle s._s_first self { self with _client := x } hinv.1 hm rfl c
  -- first statement: the old context loses this handle's reference
  have phase1 : ∃ w1,
      (match self._client with
        | some p => ClientContext.unref s.world p
        | none => pure s.world) = Except.ok w1 ∧
      CountedAt (putHandle s._s_first { self with _client := none }) w1.heap w1.released ∧
      ∀ c, w1.released.count c = s.world.released.count c +
        (if pointing s._s_first c = 1 ∧
            pointing (putHandle s._s_first { self with _client := none }) c = 0
         then 1 else 0) := by
    cases hsc : self._client with
    | none =>
      have hpt : ∀ c, pointing (putHandle s._s_first { self with _client := none }) c =
          pointing s._s_first c := by
        intro c
        have := hmove none c
        simp only [hsc] at this
        simpa using this
      refine ⟨s.world, rfl, countedAt_same _ _ _ _ hinv (hndm none) hpt, ?_⟩
      intro c
      exact no_transition _ _ _ (by rw [hpt c])
    | some p =>
      obtain ⟨ctx, hctx⟩ := counted_held_alloc _ _ _ hinv self hm p hsc
      obtain ⟨w1, hw1, hheap, hrel⟩ := unref_spec s.world p ctx hctx
      have hpt : ∀ c, pointing (putHandle s._s_first { self with _client := none }) c +
          (if c = p then 1 else 0) = pointing s._s_first c := by
        intro c
        have := hmove none c
        simp only [hsc] at this
        by_cases hc : c = p
        · subst hc; simpa using this
        · have hne : ¬ p = c := fun e => hc e.symm
          simpa [hc, hne] using this
      obtain ⟨hA, hB⟩ := countedAt_drop _ _ _ _ p ctx hinv (hndm none) hpt hctx
      refine ⟨w1, hw1, by rw [hheap, hrel]; exact hA, ?_⟩
      intro c
      rw [hrel]
      exact hB c
  obtain ⟨w1, hw1, hmid, hcount⟩ := phase1
  cases hoc : o._client with
  | none =>
    refine ⟨{ _s_first := putHandle s._s_first { self with _client := none }, world := w1 },
      ?_, hmid, hcount⟩
    simp only [step, assign, hget, hgeto, hoc, bind, Except.bind, pure, Except.pure] at hw1 ⊢
    rw [hw1]
  | some q =>
    have hoq : 0 < pointing s._s_first q := (pointing_pos_iff _ q).mpr ⟨o, hom, hoc⟩
    -- the context taken over is not one this very assignment has just let go of
    have hF : ¬ (pointing s._s_first q = 1 ∧
        pointing (putHandle s._s_first { self with _client := none }) q = 0) := by
      rintro ⟨h1, h0⟩
      by_cases hae : o.addr = self.addr
      · have hao : addr = other := by rw [← haddr, ← hoaddr, hae]
        subst hao
        rw [hfind] at hfindo
        cases hfindo
        simp [soleSelfAssign, hfind, hoc, h1] at hsole
      · have hmem := mem_putHandle_of_ne s._s_first o { self with _client := none } hom hae
        have := (pointing_pos_iff _ q).mpr ⟨o, hmem, hoc⟩
        omega
    have hmq := hmove none q
    have hmidq : 0 < pointing (putHandle s._s_first { self with _client := none }) q := by
      by_contra hz
      apply hF
      constructor
      · split at hmq <;> simp at hmq <;> omega
      · omega
    obtain ⟨ctx1, hctx1⟩ : ∃ ctx1, w1.heap q = some ctx1 := by
      cases hh : w1.heap q with
      | some x => exact ⟨x, rfl⟩
      | none =>
        have := (hmid.2.2 q hh).1
        omega
    obtain ⟨w2, hw2, hheap2, hrel2⟩ := ref_spec w1 q ctx1 hctx1
    have hpt : ∀ c, pointing (putHandle s._s_first { self with _client := some q }) c =
        pointing (putHandle s._s_first { self with _client := none }) c +
          (if c = q then 1 else 0) := by
      intro c
      have h1 := hmove none c
      have h2 := hmove (some q) c
      by_cases hc : c = q
      · subst hc
        simp only [if_true] at h2 ⊢
        simp at h1
        omega
      · have hne : ¬ q = c := fun e => hc e.symm
        simp only [hc, if_false]
        simp [hne] at h1 h2
        omega
    refine ⟨{ _s_first := putHandle s._s_first { self with _client := some q }, world := w2 },
      ?_, ?_, ?_⟩
    · simp only [step, assign, hget, hgeto, hoc, bind, Except.bind, pure, Except.pure] at hw1 ⊢
      rw [hw1]
      simp only [hw2]
    · unfold Counted
      simp only
      rw [hheap2, hrel2]
      exact countedAt_add _ _ _ _ q ctx1 hmid (hndm (some q)) hpt hctx1
    · intro c
      simp only
      rw [hrel2, hcount c]
      have hp := hpt c
      by_cases hc : c = q
      · subst hc
        have hn2 : ¬ (pointing s._s_first c = 1 ∧
            pointing (putHandle s._s_first { self with _client := some c }) c = 0) := by
          simp only [if_true] at hp
          omega
        simp [hF, hn2]
      · simp only [hc, if_false, Nat.add_zero] at hp
        rw [hp]

/-- The part of C1 the code does satisfy: from a state where the counts agree with
the registry, every operation (construct from a context, copy-construct, assignment,
stop, destroy) other than the self-assignment of a sole holder completes and the
counts agree again: each allocated context counts exactly the live handles pointing
to it and is unreleased, a freed one has none pointing to it. A context is released in
the step exactly when the number of handles pointing to it goes from 1 to 0, and then
once. -/
theorem step_counted (s : Sys) (op : Op) (hinv : Counted s)
    (happ : op.applicable s = true) :
    ∃ s1, step s op = .ok s1 ∧ Counted s1 ∧
      ∀ c, s1.world.released.count c = s.world.released.count c +
        (if pointing s._s_first c = 1 ∧ pointing s1._s_first c = 0 then 1 else 0) := by
  cases op with
  | construct addr client => exact step_construct s addr client hinv happ
  | copy addr other => exact step_copy s addr other hinv happ
  | assign addr other => exact step_assign s addr other hinv happ
  | stop addr => exact step_stop s addr hinv happ
  | destroy addr => exact step_destroy s addr hinv happ

theorem counted_initial : Counted Sys.initial := by
  refine ⟨by simp [Sys.initial], ?_, ?_⟩
  · intro c ctx h
    by_cases hc : c = 0
    · subst hc
      simp [Sys.initial, World.oneContext] at h
      subst h
      simp [Sys.initial, World.oneContext, pointing]
    · simp [Sys.initial, World.oneContext, Function.update_noteq hc] at h
  · intro c _
    simp [Sys.initial, World.oneContext, pointing]

/-- Sequences of applicable operations run to the end and keep the counts in
agreement with the registry. -/
theorem run_counted (ops : List Op) :
    ∀ s, Counted s → applicableAll s ops = true → ∃ s1, run s ops = .ok s1 ∧ Counted s1 := by
  induction ops with
  | nil =>
    intro s hinv _
    exact ⟨s, rfl, hinv⟩
  | cons op ops ih =>
    intro s hinv happ
    simp only [applicableAll, Bool.and_eq_true] at happ
    obtain ⟨h1, h2⟩ := happ
    obtain ⟨s1, hs1, hc1, -⟩ := step_counted s op hinv h1
    rw [hs1] at h2
    obtain ⟨s2, hs2, hc2⟩ := ih s1 hc1 h2
    refine ⟨s2, ?_, hc2⟩
    simp only [run, hs1, bind, Except.bind]
    exact hs2

/-- The theorem `run_counted` on a sequence that copies, reassigns, destroys and
stops handles sharing the one context. -/
theorem run_counted_witness :
    applicableAll Sys.initial
        [Op.construct 10 0, Op.copy 11 10, Op.assign 11 11, Op.assign 10 11, Op.destroy 10,
          Op.stop 11] = true ∧
    ∃ s1, run Sys.initial
        [Op.construct 10 0, Op.copy 11 10, Op.assign 11 11, Op.assign 10 11, Op.destroy 10,
          Op.stop 11] = .ok s1 ∧ Counted s1 :=
  ⟨by decide, run_counted _ Sys.initial counted_initial (by decide)⟩

end ESP8266WiFi
